import Mathlib

/-!
Shallow embedding of the plugin-cache repository (TypeScript sources:
`cache.ts` / `types.ts` in `src/unnamed/part_000`, `cleanup.ts` and `cli.ts`
in `src/cli.ts`).

Modelling conventions, applied uniformly:

* Timestamps are `Nat` milliseconds since the epoch.  The TypeScript code
  stores ISO-8601 strings and compares them via `Date` objects (millisecond
  comparison) or lexicographically; both agree with the numeric order, so the
  model works with the millisecond value directly.
* A JavaScript `Record<string, ·>` (`manifest.entries`, and the set of entry
  files on disk) is an association list `List (String × ·)` with distinct
  keys, insertion-ordered, with `recGet` / `recSet` / `recDel` mirroring
  property read, assignment (which keeps the original position of an existing
  key) and `delete`.
* Byte sizes are `Nat`; `manifest.totalSize` is an `Int` because the code
  computes it with JavaScript subtraction, which can in principle go negative.
* The fractional thresholds `maxSize * 0.9` and `maxSize * 0.7` of
  `cleanup.ts` are modelled as exact rational comparisons by
  cross-multiplication (`10 * size ≥ 9 * maxSize`, `10 * size ≤ 7 * maxSize`).
* Serialization (`JSON.stringify` + `Buffer.byteLength`) is abstracted by a
  caller-fixed size function `sz : α → Nat` on the stored data type; the data
  itself is kept unserialized, so "equal up to serialization round-trip" is
  plain equality in the model.
* Disk I/O always succeeds in the state model (the sources swallow individual
  read/unlink failures and treat the item as absent, which coincides with the
  failure-free run on the states reachable in a single process).  The one
  place where the *write mechanism* itself is specified — atomic manifest
  persistence — is modelled separately as a small file-system-operation trace
  language (`FsOp`) translated from `saveManifest` (cache.ts) and from the
  manifest writes of `cleanup.ts`.
-/

/-! ## Association-list model of JavaScript records -/

/-- Property read `m[k]` on a JS record. -/
def recGet {β : Type} : List (String × β) → String → Option β
  | [], _ => none
  | p :: rest, k => if p.1 = k then some p.2 else recGet rest k

/-- Property assignment `m[k] = v` on a JS record: an existing key keeps its
original position, a new key is appended in insertion order. -/
def recSet {β : Type} : List (String × β) → String → β → List (String × β)
  | [], k, v => [(k, v)]
  | p :: rest, k, v => if p.1 = k then (k, v) :: rest else p :: recSet rest k v

/-- Property deletion `delete m[k]` on a JS record. -/
def recDel {β : Type} : List (String × β) → String → List (String × β)
  | [], _ => []
  | p :: rest, k => if p.1 = k then rest else p :: recDel rest k

/-- Repeated deletion, one key after the other (the shape produced by the
deletion loops of `cleanup.ts` and `clear`). -/
def recDelAll {β : Type} (m : List (String × β)) (ks : List String) :
    List (String × β) :=
  ks.foldl recDel m

/-- The record has pairwise distinct keys (always true of a JS record). -/
def keysNodup {β : Type} (m : List (String × β)) : Prop :=
  (m.map (·.1)).Nodup

instance keysNodupDecidable {β : Type} (m : List (String × β)) :
    Decidable (keysNodup m) := by
  unfold keysNodup
  infer_instance

/-! ## Data model (types.ts) -/

/-- Constant `DEFAULT_MAX_SIZE` (cache.ts line 24): 500 MiB. -/
def DEFAULT_MAX_SIZE : Nat := 500 * 1024 * 1024

/-- Constant `DEFAULT_MAX_ENTRY_SIZE` (cache.ts line 25): 10 MiB. -/
def DEFAULT_MAX_ENTRY_SIZE : Nat := 10 * 1024 * 1024

/-- Constant `DEFAULT_TTL` (cache.ts line 26): 5 minutes. -/
def DEFAULT_TTL : Nat := 300000

/-- Constant `DEFAULT_STALE_WHILE_REVALIDATE` (cache.ts line 27): 24 hours. -/
def DEFAULT_STALE_WHILE_REVALIDATE : Nat := 86400000

/-- Constant `MANIFEST_VERSION` (cache.ts line 28). -/
def MANIFEST_VERSION : Nat := 1

/-- `CacheEntry<T>` of types.ts: one cache file. -/
structure CacheEntry (α : Type) where
  data : α
  createdAt : Nat
  lastAccessedAt : Nat
  expiresAt : Nat
  etag : Option String := none
  lastModified : Option String := none
  version : Option String := none
  size : Nat
deriving DecidableEq

/-- `ManifestEntry` of types.ts.  The `namespace` field is called `nspace`
because `namespace` is a Lean keyword. -/
structure ManifestEntry where
  filePath : String
  nspace : String
  key : String
  size : Nat
  lastAccessedAt : Nat
  expiresAt : Nat
deriving DecidableEq

/-- `CacheManifest` of types.ts. -/
structure CacheManifest where
  version : Nat
  totalSize : Int
  maxSize : Nat
  entries : List (String × ManifestEntry)
  lastCleanup : Option Nat := none
deriving DecidableEq

/-- `CacheConfig` of types.ts, after the defaulting done in the `PluginCache`
constructor (cache.ts lines 40-54); `nspace` models `namespace`. -/
structure CacheConfig where
  nspace : String
  defaultTTL : Nat := DEFAULT_TTL
  defaultSWR : Nat := DEFAULT_STALE_WHILE_REVALIDATE
  maxEntrySize : Nat := DEFAULT_MAX_ENTRY_SIZE
  disabled : Bool := false
deriving DecidableEq

/-- `GetOptions` of types.ts (lines 540-545): a `ttl` override and a
`staleWhileRevalidate` override. -/
structure GetOptions where
  ttl : Option Nat := none
  staleWhileRevalidate : Option Nat := none
deriving DecidableEq

/-- `SetOptions` of types.ts. -/
structure SetOptions where
  ttl : Option Nat := none
  etag : Option String := none
  lastModified : Option String := none
  version : Option String := none
deriving DecidableEq

/-- `GetOrFetchOptions` of types.ts. -/
structure GetOrFetchOptions extends SetOptions where
  bypassCache : Option Bool := none
  staleWhileRevalidate : Option Nat := none
deriving DecidableEq

/-- `CacheResult<T>` of types.ts. -/
structure CacheResult (α : Type) where
  data : Option α
  hit : Bool
  stale : Bool
  needsRevalidation : Bool
  entry : Option (CacheEntry α) := none
deriving DecidableEq

/-- `CleanupResult` of types.ts. -/
structure CleanupResult where
  entriesRemoved : Nat
  bytesFreed : Nat
  newTotalSize : Int
deriving DecidableEq

/-- The persistent state a single cache directory can be in: the entry files
(path ↦ parsed `CacheEntry`) and the manifest file (`none` when
`manifest.json` does not exist). -/
structure CacheState (α : Type) where
  files : List (String × CacheEntry α)
  manifestFile : Option CacheManifest
deriving DecidableEq

/-! ## Entry store and manifest (cache.ts) -/

/-- Character class `[a-zA-Z0-9_-]` of the sanitizer regex
(cache.ts line 109). -/
def isSafeChar (c : Char) : Bool :=
  (('a' ≤ c && c ≤ 'z') || ('A' ≤ c && c ≤ 'Z') ||
    ('0' ≤ c && c ≤ '9') || c = '_' || c = '-')

/-- `key.replace(/[^a-zA-Z0-9_-]/g, "_")` (cache.ts line 109), written over
the character list of the string so that it evaluates by kernel reduction. -/
def sanitizeKey (key : String) : String :=
  ⟨key.data.map (fun c => if isSafeChar c then c else '_')⟩

/-- `getFilePath` (cache.ts lines 107-111):
`path.join(namespaceDir, safeKey + ".json")` where
`namespaceDir = path.join(cacheDir, namespace)`.  The constant `cacheDir`
prefix is common to every path and is omitted. -/
def getFilePath (cfg : CacheConfig) (key : String) : String :=
  cfg.nspace ++ "/" ++ sanitizeKey key ++ ".json"

/-- The freshly initialized manifest that `getManifest` returns when the
manifest file is absent or unparsable (cache.ts lines 66-73 and 77-84). -/
def emptyManifest : CacheManifest :=
  { version := MANIFEST_VERSION
    totalSize := 0
    maxSize := DEFAULT_MAX_SIZE
    entries := [] }

/-- `getManifest` (cache.ts lines 65-85) seen from the raw manifest file:
`none` models an absent `manifest.json`, `some none` a file whose content
fails to `JSON.parse`, `some (some m)` a file parsing to `m`.  Both failure
cases degrade to the freshly initialized empty manifest; no error escapes. -/
def getManifestFile : Option (Option CacheManifest) → CacheManifest
  | none => emptyManifest
  | some none => emptyManifest
  | some (some m) => m

/-- `getManifest` on the operational state (every manifest the process itself
saves parses back, so the corrupt-file case does not arise on the states
threaded through the operations). -/
def getManifest {α : Type} (s : CacheState α) : CacheManifest :=
  s.manifestFile.getD emptyManifest

/-- `saveManifest` (cache.ts lines 87-105) at the state level: the manifest
file now holds `m`.  The write *mechanism* (temp file + rename) is modelled
by `saveManifestTrace` below. -/
def saveManifest {α : Type} (s : CacheState α) (m : CacheManifest) :
    CacheState α :=
  { s with manifestFile := some m }

/-! ## Operations of `PluginCache` (cache.ts) -/

/-- `invalidate` (cache.ts lines 289-315): delete the entry file, and if the
manifest has a row for it, subtract the *file* entry's size from `totalSize`
and drop the row. -/
def invalidate {α : Type} (cfg : CacheConfig) (key : String)
    (s : CacheState α) : Bool × CacheState α :=
  if cfg.disabled then (false, s)
  else
    let filePath := getFilePath cfg key
    match recGet s.files filePath with
    | none => (false, s)
    | some entry =>
      let s1 : CacheState α := { s with files := recDel s.files filePath }
      let manifest := getManifest s1
      match recGet manifest.entries filePath with
      | some _ =>
        (true, saveManifest s1
          { manifest with
            totalSize := manifest.totalSize - entry.size
            entries := recDel manifest.entries filePath })
      | none => (true, s1)

/-- `get` (cache.ts lines 138-189).  Mirrors the source order: read the file,
bind the (unused) `ttl` option and the `staleWhileRevalidate` option, bump
`lastAccessedAt` on the file and on the manifest row (saving the manifest
only if the row exists), then classify against `expiresAt` and the SWR
window, invalidating a fully expired entry as a side effect. -/
def PluginCache.get {α : Type} (cfg : CacheConfig) (key : String) (options : GetOptions)
    (now : Nat) (s : CacheState α) : CacheResult α × CacheState α :=
  if cfg.disabled then
    (⟨none, false, false, true, none⟩, s)
  else
    let filePath := getFilePath cfg key
    match recGet s.files filePath with
    | none => (⟨none, false, false, true, none⟩, s)
    | some entry0 =>
      let expiresAt := entry0.expiresAt
      let _ttl := options.ttl.getD cfg.defaultTTL
      let swr := options.staleWhileRevalidate.getD cfg.defaultSWR
      let entry : CacheEntry α := { entry0 with lastAccessedAt := now }
      let s1 : CacheState α := { s with files := recSet s.files filePath entry }
      let manifest := getManifest s1
      let s2 : CacheState α :=
        match recGet manifest.entries filePath with
        | some me =>
          saveManifest s1
            { manifest with
              entries := recSet manifest.entries filePath
                { me with lastAccessedAt := now } }
        | none => s1
      let isExpired : Bool := decide (expiresAt < now)
      let isWithinSWR : Bool := decide (now ≤ expiresAt + swr)
      if isExpired && !isWithinSWR then
        (⟨none, false, false, true, none⟩, (invalidate cfg key s2).2)
      else
        (⟨some entry.data, true, isExpired, isExpired, some entry⟩, s2)

/-- The body of `set` after its two early returns (cache.ts lines 207-241):
build the entry, update the manifest row and `totalSize` by the exact delta,
save the manifest, then write the cache file.  `sz data` is the serialized
byte size, `now` the `new Date()` instant. -/
def setCore {α : Type} (cfg : CacheConfig) (sz : α → Nat) (key : String)
    (data : α) (options : SetOptions) (now : Nat) (s : CacheState α) :
    CacheState α :=
  let size := sz data
  let ttl := options.ttl.getD cfg.defaultTTL
  let expiresAt := now + ttl
  let entry : CacheEntry α :=
    { data := data, createdAt := now, lastAccessedAt := now
      expiresAt := expiresAt, etag := options.etag
      lastModified := options.lastModified, version := options.version
      size := size }
  let filePath := getFilePath cfg key
  let manifest := getManifest s
  let oldSize : Nat := ((recGet manifest.entries filePath).map (·.size)).getD 0
  let manifest' : CacheManifest :=
    { manifest with
      entries := recSet manifest.entries filePath
        { filePath := filePath, nspace := cfg.nspace, key := key, size := size
          lastAccessedAt := now, expiresAt := expiresAt }
      totalSize := manifest.totalSize - oldSize + size }
  let s1 := saveManifest s manifest'
  { s1 with files := recSet s1.files filePath entry }

/-! ## Cleanup engine (cleanup.ts) -/

/-- `manifest.maxSize || DEFAULT_MAX_SIZE` (cleanup.ts): JavaScript `||`
falls back on the default exactly when the stored `maxSize` is `0`. -/
def maxSizeOrDefault (m : CacheManifest) : Nat :=
  if m.maxSize = 0 then DEFAULT_MAX_SIZE else m.maxSize

/-- The sort of `performCleanup`:
`Object.values(manifest.entries).sort((a, b) => aTime - bTime)` —
stable, by `lastAccessedAt` ascending. -/
def sortByLastAccessed (es : List ManifestEntry) : List ManifestEntry :=
  es.mergeSort (fun a b => a.lastAccessedAt ≤ b.lastAccessedAt)

/-- The deletion loop of `performCleanup` (cleanup.ts lines 251-267), walking
the sorted entry list: before each entry, stop if the running size is at or
below the target `maxSize * 0.7` (modelled exactly as
`10 * cur ≤ 7 * maxSize`); otherwise unlink the file, delete the manifest
row, and update the running size and the removal counters. -/
def cleanupLoop {α : Type} (maxSize : Nat) :
    List ManifestEntry → List (String × CacheEntry α) →
    List (String × ManifestEntry) → Int → Nat → Nat →
    List (String × CacheEntry α) × List (String × ManifestEntry) × Int ×
      Nat × Nat
  | [], fs, es, cur, removed, freed => (fs, es, cur, removed, freed)
  | e :: rest, fs, es, cur, removed, freed =>
    if 10 * cur ≤ 7 * (maxSize : Int) then (fs, es, cur, removed, freed)
    else
      cleanupLoop maxSize rest (recDel fs e.filePath) (recDel es e.filePath)
        (cur - e.size) (removed + 1) (freed + e.size)

/-- `performCleanup` (cleanup.ts lines 224-279) on the state.  When the
manifest file is absent it reports zeros and touches nothing; otherwise it
runs the LRU loop over all namespaces and rewrites the manifest with the new
total and a fresh `lastCleanup` stamp. -/
def performCleanup {α : Type} (now : Nat) (s : CacheState α) :
    CleanupResult × CacheState α :=
  match s.manifestFile with
  | none => (⟨0, 0, 0⟩, s)
  | some m =>
    let maxSize := maxSizeOrDefault m
    let sorted := sortByLastAccessed (m.entries.map (·.2))
    let r := cleanupLoop maxSize sorted s.files m.entries m.totalSize 0 0
    let m' : CacheManifest :=
      { m with totalSize := r.2.2.1, entries := r.2.1, lastCleanup := some now }
    (⟨r.2.2.2.1, r.2.2.2.2, r.2.2.1⟩,
      { files := r.1, manifestFile := some m' })

/-- `cleanupIfNeeded` (cleanup.ts lines 203-219): nothing happens when the
manifest file is absent or the total is strictly below the trigger
`maxSize * 0.9` (modelled exactly as `10 * totalSize < 9 * maxSize`);
otherwise `performCleanup` runs. -/
def cleanupIfNeeded {α : Type} (now : Nat) (s : CacheState α) :
    Option CleanupResult × CacheState α :=
  match s.manifestFile with
  | none => (none, s)
  | some m =>
    if 10 * m.totalSize < 9 * (maxSizeOrDefault m : Int) then (none, s)
    else
      let r := performCleanup now s
      (some r.1, r.2)

/-- `set` (cache.ts lines 194-245): no-op when disabled; warn-and-skip when
the serialized size exceeds `maxEntrySize`; otherwise run the write
(`setCore`) and then `cleanupIfNeeded`.  (Named with the source's class
prefix to avoid clashing with the monadic `set` of the library.) -/
def PluginCache.set {α : Type} (cfg : CacheConfig) (sz : α → Nat) (key : String)
    (data : α) (options : SetOptions) (now : Nat) (s : CacheState α) :
    CacheState α :=
  if cfg.disabled then s
  else if cfg.maxEntrySize < sz data then s
  else (cleanupIfNeeded now (setCore cfg sz key data options now s)).2

/-- `invalidatePattern` (cache.ts lines 320-336).  The compiled `RegExp` is
abstracted by its test function on logical keys.  The loop snapshots the
manifest rows of this namespace first, then calls `invalidate` key by key. -/
def invalidatePattern {α : Type} (cfg : CacheConfig) (test : String → Bool)
    (s : CacheState α) : Nat × CacheState α :=
  if cfg.disabled then (0, s)
  else
    let manifest := getManifest s
    let targets := manifest.entries.filter
      (fun p => decide (p.2.nspace = cfg.nspace) && test p.2.key)
    targets.foldl
      (fun acc p =>
        let r := invalidate cfg p.2.key acc.2
        (if r.1 then acc.1 + 1 else acc.1, r.2))
      (0, s)

/-- `clear` (cache.ts lines 341-367): delete every file and manifest row of
this namespace, subtract the freed bytes once at the end, save the
manifest. -/
def clear {α : Type} (cfg : CacheConfig) (s : CacheState α) :
    Nat × CacheState α :=
  if cfg.disabled then (0, s)
  else
    let manifest := getManifest s
    let targets := manifest.entries.filter
      (fun p => decide (p.2.nspace = cfg.nspace))
    let files' := targets.foldl (fun fs p => recDel fs p.1) s.files
    let entries' := targets.foldl (fun es p => recDel es p.1) manifest.entries
    let freedSize : Nat := (targets.map (·.2.size)).sum
    let m' : CacheManifest :=
      { manifest with
        totalSize := manifest.totalSize - freedSize, entries := entries' }
    (targets.length, { files := files', manifestFile := some m' })

/-- `purgeExpired` (cleanup.ts lines 284-326): remove every entry past its
SWR grace window (`now > expiresAt + defaultSWR`), subtract the freed bytes,
stamp `lastCleanup`, rewrite the manifest. -/
def purgeExpired {α : Type} (now : Nat) (defaultSWR : Nat)
    (s : CacheState α) : CleanupResult × CacheState α :=
  match s.manifestFile with
  | none => (⟨0, 0, 0⟩, s)
  | some m =>
    let targets := m.entries.filter
      (fun p => decide (p.2.expiresAt + defaultSWR < now))
    let files' := targets.foldl (fun fs p => recDel fs p.1) s.files
    let entries' := targets.foldl (fun es p => recDel es p.1) m.entries
    let freed : Nat := (targets.map (·.2.size)).sum
    let m' : CacheManifest :=
      { m with totalSize := m.totalSize - freed, entries := entries'
               lastCleanup := some now }
    (⟨targets.length, freed, m.totalSize - freed⟩,
      { files := files', manifestFile := some m' })

/-- `getOrFetch` (cache.ts lines 250-284).  The caller-supplied producer is a
value `fetcher : Except ε α` (its one invocation either throws `ε` or yields
`α`); the pair returned is (result-or-propagated-error, state of the disk
afterwards).  `cached.data!` is the TypeScript non-null assertion, modelled
by `Option.getD default` (the branch guarantees `data` is present). -/
def getOrFetch {α ε : Type} [Inhabited α] (cfg : CacheConfig) (sz : α → Nat)
    (key : String) (fetcher : Except ε α) (options : GetOrFetchOptions)
    (now : Nat) (s : CacheState α) : Except ε α × CacheState α :=
  if cfg.disabled || options.bypassCache.getD false then
    match fetcher with
    | .error e => (.error e, s)
    | .ok data =>
      if !cfg.disabled then
        (.ok data, PluginCache.set cfg sz key data options.toSetOptions now s)
      else (.ok data, s)
  else
    let r := PluginCache.get cfg key ⟨options.ttl, options.staleWhileRevalidate⟩ now s
    let cached := r.1
    let s1 := r.2
    if cached.hit && !cached.stale then
      (.ok (cached.data.getD default), s1)
    else if cached.hit && cached.stale then
      match fetcher with
      | .error e => (.error e, s1)
      | .ok freshData =>
        (.ok freshData, PluginCache.set cfg sz key freshData options.toSetOptions now s1)
    else
      match fetcher with
      | .error e => (.error e, s1)
      | .ok data =>
        (.ok data, PluginCache.set cfg sz key data options.toSetOptions now s1)

/-! ## Reachable states (single process, empty start) -/

/-- The states reachable from the empty cache directory by the mutating
operations named in the size-accounting property: `set` (with its embedded
threshold check), `invalidate`, `invalidatePattern`, `clear`, threshold
cleanup, and the expiry purge — each invoked through an arbitrary
per-namespace configuration. -/
inductive Reachable {α : Type} (sz : α → Nat) : CacheState α → Prop
  | init : Reachable sz ⟨[], none⟩
  | set (cfg key data options now s) :
      Reachable sz s → Reachable sz (PluginCache.set cfg sz key data options now s)
  | invalidate (cfg key s) :
      Reachable sz s → Reachable sz (invalidate cfg key s).2
  | invalidatePattern (cfg test s) :
      Reachable sz s → Reachable sz (invalidatePattern cfg test s).2
  | clear (cfg s) : Reachable sz s → Reachable sz (clear cfg s).2
  | cleanup (now s) : Reachable sz s → Reachable sz (performCleanup now s).2
  | purge (now swr s) :
      Reachable sz s → Reachable sz (purgeExpired now swr s).2

/-! ## Manifest-write traces (claim C3) -/

/-- File-system operations relevant to how the manifest is persisted. -/
inductive FsOp
  | writeFile (path content : String)
  | rename (src dst : String)
  | unlink (path : String)
deriving DecidableEq

/-- The per-process temporary path of `saveManifest` (cache.ts line 90):
`manifestPath + ".tmp." + process.pid`. -/
def manifestTempPath (manifestPath pid : String) : String :=
  manifestPath ++ ".tmp." ++ pid

/-- `saveManifest` (cache.ts lines 87-105) as the trace of file-system
operations it performs, together with whether it returns normally.  When the
temp-file write succeeds the manifest path is only touched by the rename;
when it fails (`writeOk = false`, the failed syscall leaving no completed
write) the temp file is unlinked and the error is rethrown (`false`). -/
def saveManifestTrace (manifestPath pid content : String) (writeOk : Bool) :
    List FsOp × Bool :=
  let tempPath := manifestTempPath manifestPath pid
  if writeOk then
    ([FsOp.writeFile tempPath content, FsOp.rename tempPath manifestPath], true)
  else ([FsOp.unlink tempPath], false)

/-- The manifest write of `performCleanup` (cleanup.ts line 272):
`fs.writeFileSync(manifestPath, JSON.stringify(manifest, null, 2))`,
a direct in-place write. -/
def performCleanupManifestTrace (manifestPath content : String) : List FsOp :=
  [FsOp.writeFile manifestPath content]

/-- The manifest write of `purgeExpired` (cleanup.ts line 319): direct. -/
def purgeExpiredManifestTrace (manifestPath content : String) : List FsOp :=
  [FsOp.writeFile manifestPath content]

/-- The manifest write of `clearAll` (cleanup.ts line 362): direct. -/
def clearAllManifestTrace (manifestPath content : String) : List FsOp :=
  [FsOp.writeFile manifestPath content]

/-- The manifest write of `clearNamespace` (cleanup.ts line 414): direct. -/
def clearNamespaceManifestTrace (manifestPath content : String) : List FsOp :=
  [FsOp.writeFile manifestPath content]

/-- A trace never writes the manifest path in place: the manifest file can
only change through a rename, so a reader never observes a truncated or
half-written manifest. -/
def noDirectManifestWrite (manifestPath : String) (ops : List FsOp) : Prop :=
  ∀ content, FsOp.writeFile manifestPath content ∉ ops

/-! ## Lemmas about the record operations -/

/-- Total size (as `Int`) of the rows of a manifest record. -/
def msum (es : List (String × ManifestEntry)) : Int :=
  (es.map (fun p => (p.2.size : Int))).sum

/-- Size recorded at a key, `0` when absent. -/
def sizeAt (es : List (String × ManifestEntry)) (k : String) : Int :=
  ((recGet es k).map (fun e => (e.size : Int))).getD 0

theorem recGet_recSet_self {β : Type} (m : List (String × β)) (k : String)
    (v : β) : recGet (recSet m k v) k = some v := by
  induction m with
  | nil => simp [recSet, recGet]
  | cons p rest ih =>
    by_cases h : p.1 = k
    · simp [recSet, h, recGet]
    · simp [recSet, h, recGet, ih]

theorem recGet_recSet_ne {β : Type} (m : List (String × β)) {k k' : String}
    (v : β) (h : k' ≠ k) : recGet (recSet m k v) k' = recGet m k' := by
  have h1 : ¬(k = k') := Ne.symm h
  induction m with
  | nil => simp [recSet, recGet, h1]
  | cons p rest ih =>
    by_cases hp : p.1 = k
    · have h2 : ¬(p.1 = k') := by rw [hp]; exact h1
      simp [recSet, hp, recGet, h1, h2]
    · simp [recSet, hp, recGet, ih]

theorem recGet_recDel_ne {β : Type} (m : List (String × β)) {k k' : String}
    (h : k' ≠ k) : recGet (recDel m k) k' = recGet m k' := by
  induction m with
  | nil => simp [recDel]
  | cons p rest ih =>
    by_cases hp : p.1 = k
    · have h2 : ¬(p.1 = k') := by rw [hp]; exact Ne.symm h
      simp [recDel, hp, recGet, h2, Ne.symm h]
    · simp [recDel, hp, recGet, ih]

theorem recGet_eq_none_of_not_mem {β : Type} {m : List (String × β)}
    {k : String} (h : k ∉ m.map (·.1)) : recGet m k = none := by
  induction m with
  | nil => rfl
  | cons p rest ih =>
    simp only [List.map_cons, List.mem_cons, not_or] at h
    have h1 : ¬(p.1 = k) := fun he => h.1 he.symm
    simp only [recGet, if_neg h1]
    exact ih h.2

theorem recGet_recDel_self {β : Type} {m : List (String × β)} (k : String)
    (h : keysNodup m) : recGet (recDel m k) k = none := by
  induction m with
  | nil => simp [recDel, recGet]
  | cons p rest ih =>
    have h1 : p.1 ∉ rest.map (·.1) := (List.nodup_cons.mp h).1
    have hrest : keysNodup rest := (List.nodup_cons.mp h).2
    by_cases hp : p.1 = k
    · simp only [recDel, if_pos hp]
      exact recGet_eq_none_of_not_mem (hp ▸ h1)
    · simp only [recDel, if_neg hp, recGet, if_neg hp]
      exact ih hrest

theorem recGet_eq_some_of_mem {β : Type} {m : List (String × β)}
    {k : String} {v : β} (hnd : keysNodup m) (hm : (k, v) ∈ m) :
    recGet m k = some v := by
  induction m with
  | nil => simp at hm
  | cons p rest ih =>
    rcases List.mem_cons.mp hm with h | h
    · simp [recGet, ← h]
    · have hne : p.1 ≠ k := by
        intro he
        have : p.1 ∉ rest.map (·.1) := (List.nodup_cons.mp hnd).1
        exact this (he ▸ (List.mem_map.mpr ⟨(k, v), h, rfl⟩))
      simp only [recGet, if_neg hne]
      exact ih (List.nodup_cons.mp hnd).2 h

theorem mem_of_mem_recSet {β : Type} {m : List (String × β)} {k : String}
    {v : β} {p : String × β} (h : p ∈ recSet m k v) :
    p = (k, v) ∨ p ∈ m := by
  induction m with
  | nil =>
    simp only [recSet, List.mem_singleton] at h
    exact Or.inl h
  | cons q rest ih =>
    by_cases hq : q.1 = k
    · simp only [recSet, if_pos hq] at h
      rcases List.mem_cons.mp h with h | h
      · exact Or.inl h
      · exact Or.inr (List.mem_cons.mpr (Or.inr h))
    · simp only [recSet, if_neg hq] at h
      rcases List.mem_cons.mp h with h | h
      · exact Or.inr (List.mem_cons.mpr (Or.inl h))
      · rcases ih h with h | h
        · exact Or.inl h
        · exact Or.inr (List.mem_cons.mpr (Or.inr h))

theorem mem_of_mem_recDel {β : Type} {m : List (String × β)} {k : String}
    {p : String × β} (h : p ∈ recDel m k) : p ∈ m := by
  induction m with
  | nil => exact h
  | cons q rest ih =>
    by_cases hq : q.1 = k
    · simp only [recDel, if_pos hq] at h
      exact List.mem_cons.mpr (Or.inr h)
    · simp only [recDel, if_neg hq] at h
      rcases List.mem_cons.mp h with h | h
      · exact List.mem_cons.mpr (Or.inl h)
      · exact List.mem_cons.mpr (Or.inr (ih h))

theorem keysNodup_recSet {β : Type} {m : List (String × β)} (k : String)
    (v : β) (h : keysNodup m) : keysNodup (recSet m k v) := by
  induction m with
  | nil => simp [recSet, keysNodup]
  | cons p rest ih =>
    have h1 := (List.nodup_cons.mp h).1
    have h2 := (List.nodup_cons.mp h).2
    by_cases hp : p.1 = k
    · unfold keysNodup
      simp only [recSet, if_pos hp, List.map_cons, List.nodup_cons]
      exact ⟨hp ▸ h1, h2⟩
    · unfold keysNodup
      simp only [recSet, if_neg hp, List.map_cons, List.nodup_cons]
      refine ⟨?_, ih h2⟩
      intro hmem
      rcases List.mem_map.mp hmem with ⟨q, hq, hq1⟩
      rcases mem_of_mem_recSet hq with h' | h'
      · apply hp
        rw [h'] at hq1
        exact hq1.symm
      · exact h1 (List.mem_map.mpr ⟨q, h', hq1⟩)

theorem keysNodup_recDel {β : Type} {m : List (String × β)} (k : String)
    (h : keysNodup m) : keysNodup (recDel m k) := by
  induction m with
  | nil => simp [recDel, keysNodup]
  | cons p rest ih =>
    have h1 := (List.nodup_cons.mp h).1
    have h2 := (List.nodup_cons.mp h).2
    by_cases hp : p.1 = k
    · simpa [recDel, hp, keysNodup] using h2
    · unfold keysNodup
      simp only [recDel, if_neg hp, List.map_cons, List.nodup_cons]
      refine ⟨?_, ih h2⟩
      intro hmem
      rcases List.mem_map.mp hmem with ⟨q, hq, hq1⟩
      exact h1 (List.mem_map.mpr ⟨q, mem_of_mem_recDel hq, hq1⟩)

theorem msum_recSet (es : List (String × ManifestEntry)) (k : String)
    (v : ManifestEntry) :
    msum (recSet es k v) = msum es - sizeAt es k + v.size := by
  induction es with
  | nil => simp [recSet, msum, sizeAt, recGet]
  | cons p rest ih =>
    by_cases hp : p.1 = k
    · simp only [recSet, if_pos hp, msum, List.map_cons, List.sum_cons,
        sizeAt, recGet]
      simp [msum] at *
      ring
    · simp only [recSet, if_neg hp, msum, List.map_cons, List.sum_cons,
        sizeAt, recGet, if_neg hp]
      have := ih
      simp only [msum, sizeAt] at this
      rw [this]
      ring

theorem msum_recDel (es : List (String × ManifestEntry)) (k : String) :
    msum (recDel es k) = msum es - sizeAt es k := by
  induction es with
  | nil => simp [recDel, msum, sizeAt, recGet]
  | cons p rest ih =>
    by_cases hp : p.1 = k
    · simp only [recDel, if_pos hp, msum, List.map_cons, List.sum_cons,
        sizeAt, recGet, if_pos hp]
      simp
    · simp only [recDel, if_neg hp, msum, List.map_cons, List.sum_cons,
        sizeAt, recGet, if_neg hp]
      have := ih
      simp only [msum, sizeAt] at this
      rw [this]
      ring

theorem recDelAll_cons {β : Type} (m : List (String × β)) (k : String)
    (ks : List String) :
    recDelAll m (k :: ks) = recDelAll (recDel m k) ks := rfl

theorem recGet_recDelAll_not_mem {β : Type} {m : List (String × β)}
    {ks : List String} {k : String} (h : k ∉ ks) :
    recGet (recDelAll m ks) k = recGet m k := by
  induction ks generalizing m with
  | nil => rfl
  | cons k' ks ih =>
    rw [recDelAll_cons, ih (fun hm => h (List.mem_cons.mpr (Or.inr hm)))]
    exact recGet_recDel_ne m (fun he => h (List.mem_cons.mpr (Or.inl he)))

theorem keysNodup_recDelAll {β : Type} {m : List (String × β)}
    (ks : List String) (h : keysNodup m) : keysNodup (recDelAll m ks) := by
  induction ks generalizing m with
  | nil => exact h
  | cons k' ks ih => exact recDelAll_cons m k' ks ▸ ih (keysNodup_recDel k' h)

theorem recGet_recDelAll_mem {β : Type} {m : List (String × β)}
    {ks : List String} {k : String} (hnd : keysNodup m) (h : k ∈ ks) :
    recGet (recDelAll m ks) k = none := by
  induction ks generalizing m with
  | nil => simp at h
  | cons k' ks ih =>
    rw [recDelAll_cons]
    by_cases hk : k ∈ ks
    · exact ih (keysNodup_recDel k' hnd) hk
    · have hkk : k = k' := by
        rcases List.mem_cons.mp h with h' | h'
        · exact h'
        · exact absurd h' hk
      rw [recGet_recDelAll_not_mem hk, hkk]
      exact recGet_recDel_self k' hnd

theorem mem_of_mem_recDelAll {β : Type} {m : List (String × β)}
    {ks : List String} {p : String × β} (h : p ∈ recDelAll m ks) : p ∈ m := by
  induction ks generalizing m with
  | nil => exact h
  | cons k' ks ih => exact mem_of_mem_recDel (ih (recDelAll_cons m k' ks ▸ h))

theorem sizeAt_eq_of_mem {es : List (String × ManifestEntry)} {k : String}
    {e : ManifestEntry} (hnd : keysNodup es) (h : (k, e) ∈ es) :
    sizeAt es k = e.size := by
  simp [sizeAt, recGet_eq_some_of_mem hnd h]

theorem msum_recDelAll {m : List (String × ManifestEntry)}
    {ks : List String} (hnd : ks.Nodup) :
    msum (recDelAll m ks) = msum m - (ks.map (sizeAt m)).sum := by
  induction ks generalizing m with
  | nil => simp [recDelAll, msum]
  | cons k ks ih =>
    have h1 : k ∉ ks := (List.nodup_cons.mp hnd).1
    have h2 : ks.Nodup := (List.nodup_cons.mp hnd).2
    rw [recDelAll_cons, ih h2, msum_recDel]
    have hmap : ks.map (sizeAt (recDel m k)) = ks.map (sizeAt m) := by
      apply List.map_congr_left
      intro k' hk'
      have : k' ≠ k := fun he => h1 (he ▸ hk')
      simp [sizeAt, recGet_recDel_ne m this]
    rw [hmap, List.map_cons, List.sum_cons]
    ring

/-! ## Concrete fixtures used by witnesses and counterexamples -/

/-- A per-namespace configuration with all source defaults. -/
def cfgT : CacheConfig := { nspace := "ns" }

/-- A serialized-size function for `Nat` data: every value is 5 bytes. -/
def szT : Nat → Nat := fun _ => 5

/-- A stored entry for key `"k"`: created at 0, expires at 100, 5 bytes. -/
def entryT : CacheEntry Nat :=
  { data := 42, createdAt := 0, lastAccessedAt := 0, expiresAt := 100
    size := 5 }

/-- The manifest row matching `entryT`. -/
def rowT : ManifestEntry :=
  { filePath := getFilePath cfgT "k", nspace := "ns", key := "k", size := 5
    lastAccessedAt := 0, expiresAt := 100 }

/-- A consistent one-entry state: file and manifest row for `"k"`. -/
def stateT : CacheState Nat :=
  { files := [(getFilePath cfgT "k", entryT)]
    manifestFile := some
      { version := 1, totalSize := 5, maxSize := DEFAULT_MAX_SIZE
        entries := [(getFilePath cfgT "k", rowT)] } }

/-! ## Claim C8: manifest load fallback -/

/-- C8: loading the manifest when the manifest file is absent (`none`) or
when its content fails to parse (`some none`) returns the freshly
initialized empty manifest — version 1, totalSize 0, maxSize the 500 MiB
default, no entries.  `getManifestFile` is a total function, so no error
reaches the caller in either case. -/
theorem c8_manifest_load_fallback :
    getManifestFile none = emptyManifest ∧
    getManifestFile (some none) = emptyManifest ∧
    emptyManifest.version = 1 ∧
    emptyManifest.totalSize = 0 ∧
    emptyManifest.maxSize = 500 * 1024 * 1024 ∧
    emptyManifest.maxSize = DEFAULT_MAX_SIZE ∧
    emptyManifest.entries = [] :=
  ⟨rfl, rfl, rfl, rfl, rfl, rfl, rfl⟩

/-! ## Claim C9: oversized set is a complete no-op -/

/-- C9: when the serialized size of the value exceeds the configured
per-entry maximum (default 10 MiB), `set` returns the state unchanged — no
entry file is written, the manifest (entries and totalSize) is untouched,
and the threshold cleanup is not reached; the operation is total, so
nothing is raised. -/
theorem c9_oversized_set_noop {α : Type} (cfg : CacheConfig) (sz : α → Nat)
    (key : String) (data : α) (options : SetOptions) (now : Nat)
    (s : CacheState α) (h : cfg.maxEntrySize < sz data) :
    PluginCache.set cfg sz key data options now s = s ∧
    DEFAULT_MAX_ENTRY_SIZE = 10 * 1024 * 1024 := by
  constructor
  · unfold PluginCache.set
    by_cases hd : cfg.disabled = true
    · simp [hd]
    · simp [hd, h]
  · rfl

theorem c9_oversized_set_noop_witness :
    PluginCache.set cfgT (fun _ => 10485761) "k" (0 : Nat) {} 5 stateT = stateT ∧
    DEFAULT_MAX_ENTRY_SIZE = 10 * 1024 * 1024 :=
  c9_oversized_set_noop cfgT (fun _ => 10485761) "k" 0 {} 5 stateT
    (by decide)

/-! ## Claim C10: the ttl option of get is dead -/

/-- C10: two `get` calls that differ only in the `ttl` field of their
`GetOptions` are the same call: `get` binds the option but never reads it —
freshness is decided by the stored `expiresAt` and the
`staleWhileRevalidate` option alone — so result and state effects are
identical. -/
theorem c10_get_ignores_ttl_option {α : Type} (cfg : CacheConfig)
    (key : String) (t1 t2 w : Option Nat) (now : Nat) (s : CacheState α) :
    PluginCache.get cfg key ⟨t1, w⟩ now s = PluginCache.get cfg key ⟨t2, w⟩ now s := rfl

/-! ## Claim C3: manifest write atomicity -/

theorem manifestTempPath_ne (mp pid : String) :
    manifestTempPath mp pid ≠ mp := by
  intro h
  have hlen := congrArg String.length h
  rw [manifestTempPath, String.length_append, String.length_append] at hlen
  have h5 : (".tmp." : String).length = 5 := rfl
  rw [h5] at hlen
  omega

/-- C3 as stated is false on the code: `performCleanup` (threshold cleanup,
cleanup.ts line 272) rewrites the manifest with a direct
`fs.writeFileSync(manifestPath, ...)`, not via a temp file and rename, so
its trace contains an in-place write of the manifest path. -/
theorem c3_counterexample :
    ¬ noDirectManifestWrite "manifest.json"
        (performCleanupManifestTrace "manifest.json" "content") := by
  intro h
  exact h "content" (List.mem_singleton.mpr rfl)

/-- C3 amended: the manifest writes that go through
`PluginCache.saveManifest` (`set`, get's access-time refresh, `invalidate`,
`clear`) write a temp file unique to the writing process and rename it into
place, never writing the manifest path directly; on a write failure the temp
file is removed and the failure propagates.  The `cleanup.ts` writers —
threshold cleanup, expiry purge, full purge, namespace purge — instead
rewrite the manifest path directly, without a temp file. -/
theorem c3_amended_manifest_persistence (mp pid c : String)
    (writeOk : Bool) :
    noDirectManifestWrite mp (saveManifestTrace mp pid c writeOk).1 ∧
    (saveManifestTrace mp pid c writeOk).2 = writeOk ∧
    (writeOk = true →
      (saveManifestTrace mp pid c writeOk).1 =
        [FsOp.writeFile (manifestTempPath mp pid) c,
         FsOp.rename (manifestTempPath mp pid) mp]) ∧
    (writeOk = false →
      (saveManifestTrace mp pid c writeOk).1 =
        [FsOp.unlink (manifestTempPath mp pid)]) ∧
    (∀ pid', pid ≠ pid' →
      manifestTempPath mp pid ≠ manifestTempPath mp pid') ∧
    performCleanupManifestTrace mp c = [FsOp.writeFile mp c] ∧
    purgeExpiredManifestTrace mp c = [FsOp.writeFile mp c] ∧
    clearAllManifestTrace mp c = [FsOp.writeFile mp c] ∧
    clearNamespaceManifestTrace mp c = [FsOp.writeFile mp c] := by
  refine ⟨?_, ?_, ?_, ?_, ?_, rfl, rfl, rfl, rfl⟩
  · cases writeOk with
    | true =>
      intro content hmem
      simp only [saveManifestTrace, if_true, List.mem_cons,
        List.mem_singleton, List.not_mem_nil, or_false] at hmem
      rcases hmem with h | h
      · exact manifestTempPath_ne mp pid
          (FsOp.writeFile.inj h).1.symm
      · exact FsOp.noConfusion h
    | false =>
      intro content hmem
      simp only [saveManifestTrace, Bool.false_eq_true, if_false,
        List.mem_singleton] at hmem
      exact FsOp.noConfusion hmem
  · cases writeOk <;> rfl
  · intro h
    subst h
    rfl
  · intro h
    subst h
    rfl
  · intro pid' hne heq
    apply hne
    have hd := congrArg String.data heq
    rw [manifestTempPath, manifestTempPath, String.data_append,
      String.data_append, String.data_append, String.data_append] at hd
    simp only [List.append_assoc] at hd
    exact String.ext
      (List.append_cancel_left (List.append_cancel_left hd))

theorem c3_amended_manifest_persistence_witness :
    noDirectManifestWrite "manifest.json"
      (saveManifestTrace "manifest.json" "123" "content" true).1 ∧
    (saveManifestTrace "manifest.json" "123" "content" true).1 =
      [FsOp.writeFile (manifestTempPath "manifest.json" "123") "content",
       FsOp.rename (manifestTempPath "manifest.json" "123") "manifest.json"] ∧
    (saveManifestTrace "manifest.json" "123" "content" false).1 =
      [FsOp.unlink (manifestTempPath "manifest.json" "123")] :=
  ⟨(c3_amended_manifest_persistence "manifest.json" "123" "content" true).1,
   (c3_amended_manifest_persistence "manifest.json" "123" "content"
      true).2.2.1 rfl,
   (c3_amended_manifest_persistence "manifest.json" "123" "content"
      false).2.2.2.1 rfl⟩

/-! ## Characterization of `get` -/

/-- The intermediate state of `get` after the access-time refresh (cache.ts
lines 156-166), for a file found to contain `e`: the entry file is rewritten
with `lastAccessedAt = now`, and the manifest row, when present, gets the
same bump and the manifest is saved. -/
def getRefreshState {α : Type} (cfg : CacheConfig) (key : String) (now : Nat)
    (s : CacheState α) (e : CacheEntry α) : CacheState α :=
  let filePath := getFilePath cfg key
  let s1 : CacheState α :=
    { s with files := recSet s.files filePath { e with lastAccessedAt := now } }
  let manifest := getManifest s1
  match recGet manifest.entries filePath with
  | some me =>
    saveManifest s1
      { manifest with
        entries := recSet manifest.entries filePath
          { me with lastAccessedAt := now } }
  | none => s1

theorem getRefreshState_files {α : Type} (cfg : CacheConfig) (key : String)
    (now : Nat) (s : CacheState α) (e : CacheEntry α) :
    (getRefreshState cfg key now s e).files =
      recSet s.files (getFilePath cfg key) { e with lastAccessedAt := now } := by
  unfold getRefreshState
  rcases h : recGet (getManifest { s with
      files := recSet s.files (getFilePath cfg key)
        { e with lastAccessedAt := now } }).entries (getFilePath cfg key) with
    _ | me <;> simp [h, saveManifest]

/-- `get`, when the entry file exists and holds `e`, either fully expires the
entry (strictly past `expiresAt + swr`: miss result, then `invalidate` runs
on the refreshed state) or returns a hit whose staleness is exactly
`expiresAt < now`, with the refreshed state. -/
theorem get_eq_of_found {α : Type} (cfg : CacheConfig) (key : String)
    (opts : GetOptions) (now : Nat) (s : CacheState α) (e : CacheEntry α)
    (hd : cfg.disabled = false)
    (hf : recGet s.files (getFilePath cfg key) = some e) :
    PluginCache.get cfg key opts now s =
      if e.expiresAt + opts.staleWhileRevalidate.getD cfg.defaultSWR < now then
        (⟨none, false, false, true, none⟩,
          (invalidate cfg key (getRefreshState cfg key now s e)).2)
      else
        (⟨some e.data, true, decide (e.expiresAt < now),
          decide (e.expiresAt < now), some { e with lastAccessedAt := now }⟩,
          getRefreshState cfg key now s e) := by
  by_cases hc : e.expiresAt + opts.staleWhileRevalidate.getD cfg.defaultSWR < now
  · have h1 : e.expiresAt < now :=
      lt_of_le_of_lt (Nat.le_add_right _ _) hc
    have h2 : ¬(now ≤ e.expiresAt + opts.staleWhileRevalidate.getD cfg.defaultSWR) :=
      Nat.not_le.mpr hc
    simp only [PluginCache.get, hd, Bool.false_eq_true, if_false, hf]
    simp [h1, h2, hc, getRefreshState]
  · have h2 : now ≤ e.expiresAt + opts.staleWhileRevalidate.getD cfg.defaultSWR :=
      Nat.not_lt.mp hc
    simp only [PluginCache.get, hd, Bool.false_eq_true, if_false, hf]
    simp [h2, hc, getRefreshState]

/-! ## Characterization of `invalidate`, `setCore` and `set` -/

theorem invalidate_found {α : Type} (cfg : CacheConfig) (key : String)
    (s : CacheState α) (e : CacheEntry α)
    (hd : cfg.disabled = false)
    (hf : recGet s.files (getFilePath cfg key) = some e) :
    invalidate cfg key s =
      match recGet (getManifest s).entries (getFilePath cfg key) with
      | some _ =>
        (true, saveManifest
          { s with files := recDel s.files (getFilePath cfg key) }
          { getManifest s with
            totalSize := (getManifest s).totalSize - e.size
            entries := recDel (getManifest s).entries (getFilePath cfg key) })
      | none => (true, { s with files := recDel s.files (getFilePath cfg key) }) := by
  have hG : getManifest
      ({ s with files := recDel s.files (getFilePath cfg key) } : CacheState α) =
      getManifest s := rfl
  unfold invalidate
  simp only [hd, Bool.false_eq_true, if_false, hf]
  rw [hG]

theorem invalidate_not_found {α : Type} (cfg : CacheConfig) (key : String)
    (s : CacheState α)
    (hf : recGet s.files (getFilePath cfg key) = none) :
    invalidate cfg key s = (false, s) := by
  unfold invalidate
  by_cases hd : cfg.disabled = true
  · simp [hd]
  · simp [hd, hf]

theorem setCore_files {α : Type} (cfg : CacheConfig) (sz : α → Nat)
    (key : String) (data : α) (options : SetOptions) (now : Nat)
    (s : CacheState α) :
    (setCore cfg sz key data options now s).files =
      recSet s.files (getFilePath cfg key)
        { data := data, createdAt := now, lastAccessedAt := now
          expiresAt := now + options.ttl.getD cfg.defaultTTL
          etag := options.etag, lastModified := options.lastModified
          version := options.version, size := sz data } := rfl

theorem setCore_manifest {α : Type} (cfg : CacheConfig) (sz : α → Nat)
    (key : String) (data : α) (options : SetOptions) (now : Nat)
    (s : CacheState α) :
    (setCore cfg sz key data options now s).manifestFile =
      some
        { getManifest s with
          entries := recSet (getManifest s).entries (getFilePath cfg key)
            { filePath := getFilePath cfg key, nspace := cfg.nspace
              key := key, size := sz data, lastAccessedAt := now
              expiresAt := now + options.ttl.getD cfg.defaultTTL }
          totalSize := (getManifest s).totalSize -
            (((recGet (getManifest s).entries (getFilePath cfg key)).map
              (·.size)).getD 0) + sz data } := rfl

/-- `cleanupIfNeeded` is a no-op when the manifest total is strictly below
the `0.9 × maxSize` trigger (or the manifest file is absent). -/
theorem cleanupIfNeeded_below {α : Type} (now : Nat) (s : CacheState α)
    (h : ∀ m, s.manifestFile = some m →
      10 * m.totalSize < 9 * (maxSizeOrDefault m : Int)) :
    cleanupIfNeeded now s = (none, s) := by
  unfold cleanupIfNeeded
  rcases hm : s.manifestFile with _ | m
  · simp [hm]
  · simp [hm, h m hm]

/-- When the manifest total after the write step stays strictly below the
`0.9 × maxSize` trigger, `set` is exactly the write step: `cleanupIfNeeded`
returns without touching anything. -/
theorem set_eq_setCore {α : Type} (cfg : CacheConfig) (sz : α → Nat)
    (key : String) (data : α) (options : SetOptions) (now : Nat)
    (s : CacheState α)
    (hd : cfg.disabled = false)
    (hsz : sz data ≤ cfg.maxEntrySize)
    (hthr : 10 * (getManifest (setCore cfg sz key data options now s)).totalSize <
      9 * (maxSizeOrDefault (getManifest (setCore cfg sz key data options now s)) : Int)) :
    PluginCache.set cfg sz key data options now s =
      setCore cfg sz key data options now s := by
  unfold PluginCache.set
  simp only [hd, Bool.false_eq_true, if_false, if_neg (Nat.not_lt.mpr hsz)]
  rw [cleanupIfNeeded_below]
  intro m hm
  rw [setCore_manifest] at hm
  rcases hm with ⟨rfl⟩
  exact hthr

/-- After `get` refreshes a found entry and then invalidates it (the fully
expired path), neither the entry file nor the manifest row survives. -/
theorem invalidate_after_refresh {α : Type} (cfg : CacheConfig) (key : String)
    (now : Nat) (s : CacheState α) (e : CacheEntry α)
    (hd : cfg.disabled = false)
    (hfn : keysNodup s.files)
    (hmn : keysNodup (getManifest s).entries) :
    recGet ((invalidate cfg key (getRefreshState cfg key now s e)).2).files
        (getFilePath cfg key) = none ∧
    recGet (getManifest
        ((invalidate cfg key (getRefreshState cfg key now s e)).2)).entries
        (getFilePath cfg key) = none := by
  have hG : getManifest ({ s with files := recSet s.files (getFilePath cfg key) { e with lastAccessedAt := now } } : CacheState α) = getManifest s := rfl
  have hfn' : keysNodup (recSet s.files (getFilePath cfg key)
      ({ e with lastAccessedAt := now })) := keysNodup_recSet _ _ hfn
  rcases hrow : recGet (getManifest s).entries (getFilePath cfg key) with _ | me
  · have hrs : getRefreshState cfg key now s e = { s with files := recSet s.files (getFilePath cfg key) { e with lastAccessedAt := now } } := by
      simp only [getRefreshState]
      rw [hG, hrow]
    rw [hrs, invalidate_found cfg key _ { e with lastAccessedAt := now } hd
      (recGet_recSet_self _ _ _), hG, hrow]
    exact ⟨recGet_recDel_self _ hfn', hrow⟩
  · have hrs : getRefreshState cfg key now s e = saveManifest { s with files := recSet s.files (getFilePath cfg key) { e with lastAccessedAt := now } } { getManifest s with entries := recSet (getManifest s).entries (getFilePath cfg key) { me with lastAccessedAt := now } } := by
      simp only [getRefreshState]
      rw [hG, hrow]
    rw [hrs, invalidate_found cfg key _ { e with lastAccessedAt := now } hd
      (recGet_recSet_self _ _ _)]
    rw [show getManifest (saveManifest { s with files := recSet s.files (getFilePath cfg key) { e with lastAccessedAt := now } } { getManifest s with entries := recSet (getManifest s).entries (getFilePath cfg key) { me with lastAccessedAt := now } }) = { getManifest s with entries := recSet (getManifest s).entries (getFilePath cfg key) { me with lastAccessedAt := now } } from rfl]
    rw [recGet_recSet_self]
    exact ⟨recGet_recDel_self _ hfn',
      recGet_recDel_self _ (keysNodup_recSet _ _ hmn)⟩

/-! ## Claim C4: TTL and SWR boundaries of `get` -/

/-- C4: for a stored entry with expiry time `E` and effective SWR window `W`,
`get` at time `now` returns a fresh hit when `now ≤ E`; a stale hit
(`hit, stale, needsRevalidation` all true) when `E < now ≤ E + W`; and a miss
when `now > E + W`, removing both the entry file and the manifest row as a
side effect.  The final conjunct records that the write step of `set` stamps
`expiresAt = creation time + ttl`. -/
theorem c4_get_expiry_boundaries {α : Type} (cfg : CacheConfig) (key : String)
    (opts : GetOptions) (now E W : Nat) (s : CacheState α) (e : CacheEntry α)
    (hd : cfg.disabled = false)
    (hf : recGet s.files (getFilePath cfg key) = some e)
    (hE : e.expiresAt = E)
    (hW : opts.staleWhileRevalidate.getD cfg.defaultSWR = W)
    (hfn : keysNodup s.files)
    (hmn : keysNodup (getManifest s).entries) :
    (now ≤ E →
      (PluginCache.get cfg key opts now s).1 =
        ⟨some e.data, true, false, false,
          some { e with lastAccessedAt := now }⟩) ∧
    (E < now → now ≤ E + W →
      (PluginCache.get cfg key opts now s).1 =
        ⟨some e.data, true, true, true,
          some { e with lastAccessedAt := now }⟩) ∧
    (E + W < now →
      (PluginCache.get cfg key opts now s).1 =
        ⟨none, false, false, true, none⟩ ∧
      recGet (PluginCache.get cfg key opts now s).2.files
        (getFilePath cfg key) = none ∧
      recGet (getManifest (PluginCache.get cfg key opts now s).2).entries
        (getFilePath cfg key) = none) ∧
    (∀ (sz : α → Nat) (v : α) (sopts : SetOptions) (t0 : Nat)
      (s0 : CacheState α),
      (recGet (setCore cfg sz key v sopts t0 s0).files
          (getFilePath cfg key)).map (fun fe => (fe.createdAt, fe.expiresAt)) =
        some (t0, t0 + sopts.ttl.getD cfg.defaultTTL)) := by
  subst hE
  subst hW
  have hge := get_eq_of_found cfg key opts now s e hd hf
  refine ⟨?_, ?_, ?_, ?_⟩
  · intro hnow
    have hc : ¬(e.expiresAt + opts.staleWhileRevalidate.getD cfg.defaultSWR < now) :=
      Nat.not_lt.mpr (le_trans hnow (Nat.le_add_right _ _))
    rw [hge, if_neg hc]
    simp [Nat.not_lt.mpr hnow]
  · intro hE' hW'
    have hc : ¬(e.expiresAt + opts.staleWhileRevalidate.getD cfg.defaultSWR < now) :=
      Nat.not_lt.mpr hW'
    rw [hge, if_neg hc]
    simp [hE']
  · intro hc
    rw [hge, if_pos hc]
    exact ⟨rfl, (invalidate_after_refresh cfg key now s e hd hfn hmn).1,
      (invalidate_after_refresh cfg key now s e hd hfn hmn).2⟩
  · intro sz v sopts t0 s0
    rw [setCore_files, recGet_recSet_self]
    rfl

theorem c4_get_expiry_boundaries_witness :
    (PluginCache.get cfgT "k" {} 50 stateT).1 =
      ⟨some 42, true, false, false, some { entryT with lastAccessedAt := 50 }⟩ :=
  (c4_get_expiry_boundaries cfgT "k" {} 50 100 86400000 stateT entryT rfl
    (by decide) rfl rfl (by decide) (by decide)).1 (by decide)

/-! ## Claim C7: set/get round trip -/

/-- A configuration whose per-entry cap is raised to the full 500 MiB
budget — `CacheConfig.maxEntrySize` is caller-chosen (types.ts), so this is
a legal instance. -/
def cfgBig : CacheConfig := { nspace := "ns", maxEntrySize := DEFAULT_MAX_SIZE }

/-- A size function making every value serialize to 460 MiB: within
`cfgBig`'s per-entry maximum, but above the `0.7 × maxSize` cleanup
target. -/
def szBig : Nat → Nat := fun _ => 460 * 1024 * 1024

/-- The entry file written by the counterexample `set`: 460 MiB at time 9,
default 5-minute ttl. -/
def entryBig : CacheEntry Nat :=
  { data := 0, createdAt := 9, lastAccessedAt := 9, expiresAt := 300009
    size := 482344960 }

/-- The manifest row matching `entryBig`. -/
def rowBig : ManifestEntry :=
  { filePath := "ns/k.json", nspace := "ns", key := "k", size := 482344960
    lastAccessedAt := 9, expiresAt := 300009 }

/-- The manifest right after the counterexample write: 460 MiB of a 500 MiB
budget, past the 90% trigger. -/
def mBig : CacheManifest :=
  { version := 1, totalSize := 482344960, maxSize := DEFAULT_MAX_SIZE
    entries := [("ns/k.json", rowBig)] }

/-- The manifest after the triggered cleanup evicted the only entry. -/
def mBigAfter : CacheManifest :=
  { version := 1, totalSize := 0, maxSize := DEFAULT_MAX_SIZE, entries := []
    lastCleanup := some 9 }

/-- C7 as universally stated is false on the code: with the cache enabled
and the serialized size within the per-entry maximum (460 MiB under a
500 MiB `maxEntrySize`), a single `set` into the empty cache pushes
`totalSize` past the `0.9 × maxSize` trigger, and the eviction it starts
removes the just-written entry (the only candidate, and larger than the
`0.7 × maxSize` target), so the immediate `get` reports a miss instead of a
fresh hit. -/
theorem c7_counterexample :
    szBig 0 ≤ cfgBig.maxEntrySize ∧
    cfgBig.disabled = false ∧
    (PluginCache.get cfgBig "k" {} 9
        (PluginCache.set cfgBig szBig "k" (0 : Nat) {} 9 ⟨[], none⟩)).1.hit =
      false := by
  refine ⟨by decide, rfl, ?_⟩
  have hA : setCore cfgBig szBig "k" (0 : Nat) {} 9
      (⟨[], none⟩ : CacheState Nat) =
      ⟨[("ns/k.json", entryBig)], some mBig⟩ := by decide
  have hsort : sortByLastAccessed (mBig.entries.map (·.2)) = [rowBig] := by
    rw [show mBig.entries.map (·.2) = [rowBig] from rfl]
    unfold sortByLastAccessed
    exact List.mergeSort_singleton rowBig
  have hB : performCleanup 9
      (⟨[("ns/k.json", entryBig)], some mBig⟩ : CacheState Nat) =
      (⟨1, 482344960, 0⟩, ⟨[], some mBigAfter⟩) := by
    unfold performCleanup
    dsimp only
    rw [hsort]
    decide
  have hC : cleanupIfNeeded 9
      (⟨[("ns/k.json", entryBig)], some mBig⟩ : CacheState Nat) =
      (some ⟨1, 482344960, 0⟩, ⟨[], some mBigAfter⟩) := by
    unfold cleanupIfNeeded
    dsimp only
    rw [if_neg (show ¬(10 * mBig.totalSize <
      9 * ((maxSizeOrDefault mBig : Nat) : Int)) from by decide), hB]
  have hset : PluginCache.set cfgBig szBig "k" (0 : Nat) {} 9
      (⟨[], none⟩ : CacheState Nat) = ⟨[], some mBigAfter⟩ := by
    unfold PluginCache.set
    rw [if_neg (show ¬(cfgBig.disabled = true) from by decide),
      if_neg (show ¬(cfgBig.maxEntrySize < szBig 0) from by decide), hA, hC]
  rw [hset]
  decide

/-- C7 amended: with the cache enabled and the serialized size within the
per-entry maximum, `set(k, v)` followed immediately by `get(k)` returns `v`
(plain equality in the model stands for equality up to the serialization
round-trip) with `hit = true` and `stale = false`, provided the write does
not push the manifest total to the `0.9 × maxSize` cleanup trigger
(hypothesis `hthr`) — when it does, the triggered eviction can remove the
entry that was just written, as `c7_counterexample` shows. -/
theorem c7_set_get_round_trip {α : Type} (cfg : CacheConfig) (sz : α → Nat)
    (key : String) (data : α) (options : SetOptions) (gopts : GetOptions)
    (now : Nat) (s : CacheState α)
    (hd : cfg.disabled = false)
    (hsz : sz data ≤ cfg.maxEntrySize)
    (hthr : 10 * (getManifest (setCore cfg sz key data options now s)).totalSize <
      9 * (maxSizeOrDefault (getManifest (setCore cfg sz key data options now s)) : Int)) :
    (PluginCache.get cfg key gopts now
        (PluginCache.set cfg sz key data options now s)).1.data = some data ∧
    (PluginCache.get cfg key gopts now
        (PluginCache.set cfg sz key data options now s)).1.hit = true ∧
    (PluginCache.get cfg key gopts now
        (PluginCache.set cfg sz key data options now s)).1.stale = false := by
  rw [set_eq_setCore cfg sz key data options now s hd hsz hthr]
  have hf : recGet (setCore cfg sz key data options now s).files (getFilePath cfg key) = some { data := data, createdAt := now, lastAccessedAt := now, expiresAt := now + options.ttl.getD cfg.defaultTTL, etag := options.etag, lastModified := options.lastModified, version := options.version, size := sz data } := by
    rw [setCore_files]
    exact recGet_recSet_self _ _ _
  rw [get_eq_of_found cfg key gopts now _ _ hd hf]
  have hc : ¬(now + options.ttl.getD cfg.defaultTTL +
      gopts.staleWhileRevalidate.getD cfg.defaultSWR < now) :=
    Nat.not_lt.mpr (le_trans (Nat.le_add_right _ _) (Nat.le_add_right _ _))
  rw [if_neg hc]
  refine ⟨rfl, rfl, ?_⟩
  exact decide_eq_false (Nat.not_lt.mpr (Nat.le_add_right now _))

theorem c7_set_get_round_trip_witness :
    (PluginCache.get cfgT "k" {} 7
        (PluginCache.set cfgT szT "k" 42 {} 7 ⟨[], none⟩)).1.data = some 42 ∧
    (PluginCache.get cfgT "k" {} 7
        (PluginCache.set cfgT szT "k" 42 {} 7 ⟨[], none⟩)).1.hit = true ∧
    (PluginCache.get cfgT "k" {} 7
        (PluginCache.set cfgT szT "k" 42 {} 7 ⟨[], none⟩)).1.stale = false :=
  c7_set_get_round_trip cfgT szT "k" 42 {} {} 7 ⟨[], none⟩ rfl (by decide)
    (by decide)

/-! ## Claim C5: getOrFetch policy table -/

theorem get_hit_data_isSome {α : Type} (cfg : CacheConfig) (key : String)
    (opts : GetOptions) (now : Nat) (s : CacheState α)
    (h : (PluginCache.get cfg key opts now s).1.hit = true) :
    ((PluginCache.get cfg key opts now s).1.data).isSome = true := by
  by_cases hd : cfg.disabled = true
  · unfold PluginCache.get at h
    simp [hd] at h
  · have hb : cfg.disabled = false := by
      cases hcd : cfg.disabled
      · rfl
      · exact absurd hcd hd
    rcases hfp : recGet s.files (getFilePath cfg key) with _ | e
    · unfold PluginCache.get at h
      simp [hb, hfp] at h
    · rw [get_eq_of_found cfg key opts now s e hb hfp] at h ⊢
      by_cases hc : e.expiresAt + opts.staleWhileRevalidate.getD cfg.defaultSWR < now
      · rw [if_pos hc] at h
        exact absurd h (by simp)
      · rw [if_neg hc]
        rfl

/-- C5: with the cache enabled and no bypass, `getOrFetch` follows the
policy table.  Fresh hit: the result is the cached data and the state the
one left by the embedded `get`, identically for every producer (so the
producer is never consulted).  Stale hit and miss: the producer's value `v`
is returned (never the stale data) and the state is `set` applied to store
`v`.  The last conjunct shows that this `set`, under its own guards, really
leaves `v` as the stored data for the key. -/
theorem c5_getOrFetch_policy {α ε : Type} [Inhabited α] (cfg : CacheConfig)
    (sz : α → Nat) (key : String) (options : GetOrFetchOptions) (now : Nat)
    (s : CacheState α)
    (hd : cfg.disabled = false)
    (hb : options.bypassCache.getD false = false) :
    ((PluginCache.get cfg key ⟨options.ttl, options.staleWhileRevalidate⟩ now s).1.hit = true ∧
     (PluginCache.get cfg key ⟨options.ttl, options.staleWhileRevalidate⟩ now s).1.stale = false →
      ∀ f : Except ε α, getOrFetch cfg sz key f options now s =
        (Except.ok (((PluginCache.get cfg key ⟨options.ttl, options.staleWhileRevalidate⟩ now s).1.data).getD default),
          (PluginCache.get cfg key ⟨options.ttl, options.staleWhileRevalidate⟩ now s).2) ∧
        ((PluginCache.get cfg key ⟨options.ttl, options.staleWhileRevalidate⟩ now s).1.data).isSome = true) ∧
    ((PluginCache.get cfg key ⟨options.ttl, options.staleWhileRevalidate⟩ now s).1.hit = true ∧
     (PluginCache.get cfg key ⟨options.ttl, options.staleWhileRevalidate⟩ now s).1.stale = true →
      ∀ v : α, getOrFetch cfg sz key (Except.ok v : Except ε α) options now s =
        (Except.ok v, PluginCache.set cfg sz key v options.toSetOptions now
          (PluginCache.get cfg key ⟨options.ttl, options.staleWhileRevalidate⟩ now s).2)) ∧
    ((PluginCache.get cfg key ⟨options.ttl, options.staleWhileRevalidate⟩ now s).1.hit = false →
      ∀ v : α, getOrFetch cfg sz key (Except.ok v : Except ε α) options now s =
        (Except.ok v, PluginCache.set cfg sz key v options.toSetOptions now
          (PluginCache.get cfg key ⟨options.ttl, options.staleWhileRevalidate⟩ now s).2)) ∧
    (∀ (v : α) (s1 : CacheState α), sz v ≤ cfg.maxEntrySize →
      10 * (getManifest (setCore cfg sz key v options.toSetOptions now s1)).totalSize <
        9 * (maxSizeOrDefault (getManifest (setCore cfg sz key v options.toSetOptions now s1)) : Int) →
      (recGet (PluginCache.set cfg sz key v options.toSetOptions now s1).files
          (getFilePath cfg key)).map (·.data) = some v) := by
  refine ⟨?_, ?_, ?_, ?_⟩
  · rintro ⟨h1, h2⟩ f
    refine ⟨?_, get_hit_data_isSome _ _ _ _ _ h1⟩
    simp [getOrFetch, hd, hb, h1, h2]
  · rintro ⟨h1, h2⟩ v
    simp [getOrFetch, hd, hb, h1, h2]
  · intro h1 v
    simp [getOrFetch, hd, hb, h1]
  · intro v s1 hsz hthr
    rw [set_eq_setCore cfg sz key v options.toSetOptions now s1 hd hsz hthr,
      setCore_files, recGet_recSet_self]
    rfl

theorem c5_getOrFetch_policy_witness :
    (getOrFetch cfgT szT "k" (Except.error "boom") ({} : GetOrFetchOptions)
        50 stateT =
      (Except.ok (((PluginCache.get cfgT "k" ⟨none, none⟩ 50 stateT).1.data).getD default),
        (PluginCache.get cfgT "k" ⟨none, none⟩ 50 stateT).2)) ∧
    ((PluginCache.get cfgT "k" ⟨none, none⟩ 50 stateT).1.data).isSome = true :=
  (c5_getOrFetch_policy cfgT szT "k" {} 50 stateT rfl rfl).1
    ⟨by decide, by decide⟩ (Except.error "boom")

/-! ## Claim C6: producer failure in getOrFetch -/

/-- C6 as stated is false on the code: for a key holding a fully expired
entry (past TTL and past the SWR window), `getOrFetch` with a failing
producer does propagate the failure, but the existing cached value is *not*
left untouched — the embedded `get` removes the entry (file shown here)
before the producer even runs. -/
theorem c6_counterexample :
    recGet stateT.files (getFilePath cfgT "k") = some entryT ∧
    (getOrFetch cfgT szT "k" (Except.error "boom") ({} : GetOrFetchOptions)
        86400101 stateT).1 = Except.error "boom" ∧
    recGet ((getOrFetch cfgT szT "k" (Except.error "boom")
        ({} : GetOrFetchOptions) 86400101 stateT).2).files
      (getFilePath cfgT "k") = none := by
  refine ⟨by decide, by rfl, by decide⟩

/-- C6 amended: with the cache enabled, no bypass, and the producer actually
invoked (the call is not a fresh hit), a failing producer's error propagates
unmodified and without retry, and the post-state is exactly the state left
by the embedded `get` — `set` never runs, so nothing is stored.  Any cached
value for the key still inside its SWR grace window keeps its data (only
`lastAccessedAt` is refreshed); a fully expired value, however, has already
been removed by `get`. -/
theorem c6_amended_producer_failure {α ε : Type} [Inhabited α]
    (cfg : CacheConfig) (sz : α → Nat) (key : String) (err : ε)
    (options : GetOrFetchOptions) (now : Nat) (s : CacheState α)
    (hd : cfg.disabled = false)
    (hb : options.bypassCache.getD false = false)
    (hns : ¬((PluginCache.get cfg key ⟨options.ttl, options.staleWhileRevalidate⟩ now s).1.hit = true ∧
      (PluginCache.get cfg key ⟨options.ttl, options.staleWhileRevalidate⟩ now s).1.stale = false)) :
    getOrFetch cfg sz key (Except.error err) options now s =
      (Except.error err,
        (PluginCache.get cfg key ⟨options.ttl, options.staleWhileRevalidate⟩ now s).2) ∧
    (∀ e : CacheEntry α, recGet s.files (getFilePath cfg key) = some e →
      now ≤ e.expiresAt + options.staleWhileRevalidate.getD cfg.defaultSWR →
      (recGet ((getOrFetch cfg sz key (Except.error err) options now s).2).files
          (getFilePath cfg key)).map (·.data) = some e.data) := by
  have h1 : getOrFetch cfg sz key (Except.error err) options now s =
      (Except.error err,
        (PluginCache.get cfg key ⟨options.ttl, options.staleWhileRevalidate⟩ now s).2) := by
    cases hh : (PluginCache.get cfg key ⟨options.ttl, options.staleWhileRevalidate⟩ now s).1.hit with
    | false => simp [getOrFetch, hd, hb, hh]
    | true =>
      cases hs : (PluginCache.get cfg key ⟨options.ttl, options.staleWhileRevalidate⟩ now s).1.stale with
      | false => exact absurd ⟨hh, hs⟩ hns
      | true => simp [getOrFetch, hd, hb, hh, hs]
  refine ⟨h1, ?_⟩
  intro e hf hW
  rw [h1]
  rw [get_eq_of_found cfg key ⟨options.ttl, options.staleWhileRevalidate⟩ now s e hd hf]
  rw [if_neg (Nat.not_lt.mpr hW)]
  rw [getRefreshState_files, recGet_recSet_self]
  rfl

theorem c6_amended_producer_failure_witness :
    getOrFetch cfgT szT "k" (Except.error "boom") ({} : GetOrFetchOptions)
        200 stateT =
      (Except.error "boom",
        (PluginCache.get cfgT "k" ⟨none, none⟩ 200 stateT).2) :=
  (c6_amended_producer_failure cfgT szT "k" "boom" {} 200 stateT rfl rfl
    (by decide)).1

/-! ## The size-accounting invariant (claim C1) -/

theorem sizeAt_cast (E : List (String × ManifestEntry)) (fp : String) :
    ((((recGet E fp).map (·.size)).getD 0 : Nat) : Int) = sizeAt E fp := by
  unfold sizeAt
  cases recGet E fp <;> simp

theorem foldl_recDel_eq {β γ : Type} (targets : List (String × γ))
    (X : List (String × β)) :
    targets.foldl (fun fs p => recDel fs p.1) X =
      recDelAll X (targets.map (·.1)) := by
  rw [recDelAll, List.foldl_map]

/-- The bookkeeping invariant relating a cache state's manifest and entry
files: `totalSize` is the sum of the manifest row sizes, the rows form a
proper record keyed by their own `filePath`, and a row's recorded size
matches the size stored in the entry file at the same path. -/
structure CacheInv {α : Type} (s : CacheState α) : Prop where
  sizeEq : (getManifest s).totalSize = msum (getManifest s).entries
  nodupE : keysNodup (getManifest s).entries
  keyField : ∀ p ∈ (getManifest s).entries, p.2.filePath = p.1
  agree : ∀ fp me fe, recGet (getManifest s).entries fp = some me →
    recGet s.files fp = some fe → me.size = fe.size

theorem inv_empty {α : Type} : CacheInv (⟨[], none⟩ : CacheState α) := by
  constructor
  · rfl
  · simp [keysNodup, getManifest, emptyManifest]
  · intro p hp
    simp [getManifest, emptyManifest] at hp
  · intro fp me fe h1 _
    simp [getManifest, emptyManifest, recGet] at h1

theorem inv_setCore {α : Type} (cfg : CacheConfig) (sz : α → Nat)
    (key : String) (data : α) (options : SetOptions) (now : Nat)
    (s : CacheState α) (h : CacheInv s) :
    CacheInv (setCore cfg sz key data options now s) := by
  have hm : getManifest (setCore cfg sz key data options now s) = { getManifest s with entries := recSet (getManifest s).entries (getFilePath cfg key) { filePath := getFilePath cfg key, nspace := cfg.nspace, key := key, size := sz data, lastAccessedAt := now, expiresAt := now + options.ttl.getD cfg.defaultTTL }, totalSize := (getManifest s).totalSize - (((recGet (getManifest s).entries (getFilePath cfg key)).map (·.size)).getD 0 : Nat) + sz data } := rfl
  constructor
  · rw [hm]
    simp only [msum_recSet]
    rw [← sizeAt_cast (getManifest s).entries (getFilePath cfg key), h.sizeEq]
  · rw [hm]
    exact keysNodup_recSet _ _ h.nodupE
  · intro p hp
    rw [hm] at hp
    simp only at hp
    rcases mem_of_mem_recSet hp with h' | h'
    · subst h'
      rfl
    · exact h.keyField p h'
  · intro fp' me fe h1 h2
    rw [hm] at h1
    simp only at h1
    rw [setCore_files] at h2
    by_cases hfp : fp' = getFilePath cfg key
    · subst hfp
      rw [recGet_recSet_self] at h1 h2
      rcases h1 with ⟨rfl⟩
      rcases h2 with ⟨rfl⟩
      rfl
    · rw [recGet_recSet_ne _ _ hfp] at h1 h2
      exact h.agree fp' me fe h1 h2

theorem inv_invalidate {α : Type} (cfg : CacheConfig) (key : String)
    (s : CacheState α) (h : CacheInv s) :
    CacheInv (invalidate cfg key s).2 := by
  by_cases hd : cfg.disabled = true
  · have hstep : invalidate cfg key s = (false, s) := by
      unfold invalidate
      simp [hd]
    rw [hstep]
    exact h
  · have hb : cfg.disabled = false := by
      cases hcd : cfg.disabled
      · rfl
      · exact absurd hcd hd
    rcases hf : recGet s.files (getFilePath cfg key) with _ | e
    · rw [invalidate_not_found cfg key s hf]
      exact h
    · rw [invalidate_found cfg key s e hb hf]
      rcases hrow : recGet (getManifest s).entries (getFilePath cfg key) with _ | me
      · constructor
        · exact h.sizeEq
        · exact h.nodupE
        · exact h.keyField
        · intro fp me' fe h1 h2
          have h1' : recGet (getManifest s).entries fp = some me' := h1
          by_cases hfp : fp = getFilePath cfg key
          · subst hfp
            rw [hrow] at h1'
            exact absurd h1' (by simp)
          · have h2' : recGet (recDel s.files (getFilePath cfg key)) fp = some fe := h2
            rw [recGet_recDel_ne _ hfp] at h2'
            exact h.agree fp me' fe h1' h2'
      · constructor
        · show (getManifest s).totalSize - (e.size : Int) =
            msum (recDel (getManifest s).entries (getFilePath cfg key))
          rw [msum_recDel, h.sizeEq]
          have hsz : sizeAt (getManifest s).entries (getFilePath cfg key) =
              (me.size : Int) := by
            unfold sizeAt
            rw [hrow]
            rfl
          rw [hsz, h.agree _ me e hrow hf]
        · exact keysNodup_recDel _ h.nodupE
        · intro p hp
          exact h.keyField p (mem_of_mem_recDel hp)
        · intro fp me' fe h1 h2
          have h1' : recGet (recDel (getManifest s).entries
              (getFilePath cfg key)) fp = some me' := h1
          have h2' : recGet (recDel s.files (getFilePath cfg key)) fp =
              some fe := h2
          by_cases hfp : fp = getFilePath cfg key
          · subst hfp
            rw [recGet_recDel_self _ h.nodupE] at h1'
            exact absurd h1' (by simp)
          · rw [recGet_recDel_ne _ hfp] at h1' h2'
            exact h.agree fp me' fe h1' h2'

theorem inv_foldl_invalidate {α : Type} (cfg : CacheConfig)
    (targets : List (String × ManifestEntry)) :
    ∀ acc : Nat × CacheState α, CacheInv acc.2 →
      CacheInv (targets.foldl
        (fun acc p =>
          let r := invalidate cfg p.2.key acc.2
          (if r.1 then acc.1 + 1 else acc.1, r.2)) acc).2 := by
  induction targets with
  | nil =>
    intro acc h
    exact h
  | cons t ts ih =>
    intro acc h
    rw [List.foldl_cons]
    exact ih _ (inv_invalidate cfg t.2.key acc.2 h)

theorem inv_invalidatePattern {α : Type} (cfg : CacheConfig)
    (test : String → Bool) (s : CacheState α) (h : CacheInv s) :
    CacheInv (invalidatePattern cfg test s).2 := by
  unfold invalidatePattern
  by_cases hd : cfg.disabled = true
  · simp only [hd, if_true]
    exact h
  · have hb : cfg.disabled = false := by
      cases hcd : cfg.disabled
      · rfl
      · exact absurd hcd hd
    simp only [hb, Bool.false_eq_true, if_false]
    exact inv_foldl_invalidate cfg _ (0, s) h

/-- Deleting the filtered subset of manifest rows (with their files) and
subtracting their total size preserves the bookkeeping invariant.  This is
the common shape of `clear` and `purgeExpired`. -/
theorem inv_after_filter_delete {α : Type} (s : CacheState α)
    (cond : String × ManifestEntry → Bool) (lc : Option Nat)
    (h : CacheInv s) :
    CacheInv
      { files := ((getManifest s).entries.filter cond).foldl
          (fun fs p => recDel fs p.1) s.files
        manifestFile := some
          { getManifest s with
            totalSize := (getManifest s).totalSize -
              (((((getManifest s).entries.filter cond).map (·.2.size)).sum : Nat) : Int)
            entries := ((getManifest s).entries.filter cond).foldl
              (fun es p => recDel es p.1) (getManifest s).entries
            lastCleanup := lc } } := by
  have hks : ((((getManifest s).entries.filter cond)).map (·.1)).Nodup :=
    List.Nodup.sublist (List.Sublist.map _ (List.filter_sublist _)) h.nodupE
  have hpt : ((((getManifest s).entries.filter cond)).map (·.1)).map
      (sizeAt (getManifest s).entries) =
      (((getManifest s).entries.filter cond)).map (fun p => (p.2.size : Int)) := by
    rw [List.map_map]
    apply List.map_congr_left
    intro p hp
    exact sizeAt_eq_of_mem h.nodupE (List.mem_of_mem_filter hp)
  constructor
  · show (getManifest s).totalSize - _ =
      msum (((getManifest s).entries.filter cond).foldl
        (fun es p => recDel es p.1) (getManifest s).entries)
    rw [foldl_recDel_eq, msum_recDelAll hks, h.sizeEq, hpt, Nat.cast_list_sum,
      List.map_map]
    rfl
  · show keysNodup (((getManifest s).entries.filter cond).foldl
      (fun es p => recDel es p.1) (getManifest s).entries)
    rw [foldl_recDel_eq]
    exact keysNodup_recDelAll _ h.nodupE
  · intro p hp
    have hp' : p ∈ recDelAll (getManifest s).entries
        ((((getManifest s).entries.filter cond)).map (·.1)) := by
      rw [← foldl_recDel_eq]
      exact hp
    exact h.keyField p (mem_of_mem_recDelAll hp')
  · intro fp me fe h1 h2
    have h1' : recGet (recDelAll (getManifest s).entries
        ((((getManifest s).entries.filter cond)).map (·.1))) fp = some me := by
      rw [← foldl_recDel_eq]
      exact h1
    have h2' : recGet (recDelAll s.files
        ((((getManifest s).entries.filter cond)).map (·.1))) fp = some fe := by
      rw [← foldl_recDel_eq]
      exact h2
    by_cases hfp : fp ∈ (((getManifest s).entries.filter cond)).map (·.1)
    · rw [recGet_recDelAll_mem h.nodupE hfp] at h1'
      exact absurd h1' (by simp)
    · rw [recGet_recDelAll_not_mem hfp] at h1' h2'
      exact h.agree fp me fe h1' h2'

theorem inv_clear {α : Type} (cfg : CacheConfig) (s : CacheState α)
    (h : CacheInv s) : CacheInv (clear cfg s).2 := by
  unfold clear
  by_cases hd : cfg.disabled = true
  · simp only [hd, if_true]
    exact h
  · have hb : cfg.disabled = false := by
      cases hcd : cfg.disabled
      · rfl
      · exact absurd hcd hd
    simp only [hb, Bool.false_eq_true, if_false]
    exact inv_after_filter_delete s _ (getManifest s).lastCleanup h

theorem inv_purgeExpired {α : Type} (now defaultSWR : Nat) (s : CacheState α)
    (h : CacheInv s) : CacheInv (purgeExpired now defaultSWR s).2 := by
  unfold purgeExpired
  rcases hm : s.manifestFile with _ | m
  · exact h
  · have hg : getManifest s = m := by
      unfold getManifest
      rw [hm]
      rfl
    subst hg
    exact inv_after_filter_delete s _ (some now) h

/-- Characterization of the cleanup loop: it removes exactly the shortest
prefix of its (sorted) candidate list that brings the running size to the
`0.7 × maxSize` target (or the whole list when even that is not enough),
deleting those entries' files and manifest rows and accounting their sizes. -/
theorem cleanupLoop_spec {α : Type} (maxSize : Nat) :
    ∀ (l : List ManifestEntry) (fs : List (String × CacheEntry α))
      (es : List (String × ManifestEntry)) (cur : Int) (r f : Nat),
      ∃ k, k ≤ l.length ∧
        cleanupLoop maxSize l fs es cur r f =
          (recDelAll fs ((l.take k).map (·.filePath)),
           recDelAll es ((l.take k).map (·.filePath)),
           cur - ((l.take k).map (fun e => (e.size : Int))).sum,
           r + k, f + ((l.take k).map (·.size)).sum) ∧
        (∀ j, j < k →
          ¬(10 * (cur - ((l.take j).map (fun e => (e.size : Int))).sum) ≤
            7 * (maxSize : Int))) ∧
        (k = l.length ∨
          10 * (cur - ((l.take k).map (fun e => (e.size : Int))).sum) ≤
            7 * (maxSize : Int)) := by
  intro l
  induction l with
  | nil =>
    intro fs es cur r f
    refine ⟨0, Nat.le_refl 0, ?_, ?_, Or.inl rfl⟩
    · simp [cleanupLoop, recDelAll]
    · intro j hj
      exact absurd hj (Nat.not_lt_zero j)
  | cons e rest ih =>
    intro fs es cur r f
    by_cases hc : 10 * cur ≤ 7 * (maxSize : Int)
    · refine ⟨0, Nat.zero_le _, ?_, ?_, Or.inr ?_⟩
      · simp [cleanupLoop, hc, recDelAll]
      · intro j hj
        exact absurd hj (Nat.not_lt_zero j)
      · simpa using hc
    · rcases ih (recDel fs e.filePath) (recDel es e.filePath) (cur - e.size)
        (r + 1) (f + e.size) with ⟨k', hk'le, heq, hmin, hstop⟩
      refine ⟨k' + 1, Nat.succ_le_succ hk'le, ?_, ?_, ?_⟩
      · have hl : cleanupLoop maxSize (e :: rest) fs es cur r f =
            cleanupLoop maxSize rest (recDel fs e.filePath)
              (recDel es e.filePath) (cur - e.size) (r + 1) (f + e.size) := by
          simp [cleanupLoop, hc]
        rw [hl, heq]
        simp only [List.take_succ_cons, List.map_cons, List.sum_cons,
          recDelAll_cons, Prod.mk.injEq, eq_self_iff_true, true_and]
        refine ⟨by ring, by omega, by omega⟩
      · intro j hj
        cases j with
        | zero =>
          simpa using hc
        | succ j' =>
          have hj' : j' < k' := Nat.lt_of_succ_lt_succ hj
          have hmj := hmin j' hj'
          rw [List.take_succ_cons, List.map_cons, List.sum_cons, ← sub_sub]
          exact hmj
      · rcases hstop with h' | h'
        · exact Or.inl (by simp [h'])
        · refine Or.inr ?_
          rw [List.take_succ_cons, List.map_cons, List.sum_cons, ← sub_sub]
          exact h'

theorem mem_entries_of_mem_sorted {es : List (String × ManifestEntry)}
    {e : ManifestEntry} (h : e ∈ sortByLastAccessed (es.map (·.2))) :
    e ∈ es.map (·.2) :=
  (List.Perm.mem_iff (List.mergeSort_perm _ _)).mp h

theorem recGet_of_mem_rows {es : List (String × ManifestEntry)}
    (hn : keysNodup es) (hk : ∀ p ∈ es, p.2.filePath = p.1)
    {e : ManifestEntry} (he : e ∈ es.map (·.2)) :
    recGet es e.filePath = some e := by
  rcases List.mem_map.mp he with ⟨p, hp, rfl⟩
  rw [hk p hp]
  exact recGet_eq_some_of_mem hn hp

theorem sorted_paths_nodup {es : List (String × ManifestEntry)}
    (hn : keysNodup es) (hk : ∀ p ∈ es, p.2.filePath = p.1) :
    ((sortByLastAccessed (es.map (·.2))).map (·.filePath)).Nodup := by
  have hperm := List.mergeSort_perm (es.map (·.2))
    (fun a b => a.lastAccessedAt ≤ b.lastAccessedAt)
  have hmap : ((es.map (·.2)).map (·.filePath)) = es.map (·.1) := by
    rw [List.map_map]
    exact List.map_congr_left hk
  have h2 : ((sortByLastAccessed (es.map (·.2))).map (·.filePath)).Perm
      (es.map (·.1)) := by
    rw [← hmap]
    exact hperm.map _
  exact (List.Perm.nodup_iff h2).mpr hn

theorem inv_performCleanup {α : Type} (now : Nat) (s : CacheState α)
    (h : CacheInv s) : CacheInv (performCleanup now s).2 := by
  unfold performCleanup
  rcases hm : s.manifestFile with _ | m
  · exact h
  · have hg : getManifest s = m := by
      unfold getManifest
      rw [hm]
      rfl
    subst hg
    rcases cleanupLoop_spec (maxSizeOrDefault (getManifest s))
      (sortByLastAccessed ((getManifest s).entries.map (·.2))) s.files
      (getManifest s).entries (getManifest s).totalSize 0 0 with
      ⟨k, hkle, heq, hmin, hstop⟩
    dsimp only
    rw [heq]
    have hRMnodup : (((sortByLastAccessed
        ((getManifest s).entries.map (·.2))).take k).map (·.filePath)).Nodup :=
      List.Nodup.sublist (List.Sublist.map _ (List.take_sublist _ _))
        (sorted_paths_nodup h.nodupE h.keyField)
    have hmapeq : (((sortByLastAccessed
        ((getManifest s).entries.map (·.2))).take k).map (·.filePath)).map
          (sizeAt (getManifest s).entries) =
        ((sortByLastAccessed ((getManifest s).entries.map (·.2))).take k).map
          (fun e => (e.size : Int)) := by
      rw [List.map_map]
      apply List.map_congr_left
      intro e he
      have hmem : e ∈ (getManifest s).entries.map (·.2) :=
        mem_entries_of_mem_sorted (List.take_subset _ _ he)
      show sizeAt (getManifest s).entries e.filePath = (e.size : Int)
      unfold sizeAt
      rw [recGet_of_mem_rows h.nodupE h.keyField hmem]
      rfl
    constructor
    · show (getManifest s).totalSize - _ = msum (recDelAll _ _)
      rw [msum_recDelAll hRMnodup, h.sizeEq, hmapeq]
    · show keysNodup (recDelAll _ _)
      exact keysNodup_recDelAll _ h.nodupE
    · intro p hp
      exact h.keyField p (mem_of_mem_recDelAll hp)
    · intro fp me fe h1 h2
      have h1' : recGet (recDelAll (getManifest s).entries
          (((sortByLastAccessed ((getManifest s).entries.map (·.2))).take
            k).map (·.filePath))) fp = some me := h1
      have h2' : recGet (recDelAll s.files
          (((sortByLastAccessed ((getManifest s).entries.map (·.2))).take
            k).map (·.filePath))) fp = some fe := h2
      by_cases hfp : fp ∈ ((sortByLastAccessed
          ((getManifest s).entries.map (·.2))).take k).map (·.filePath)
      · rw [recGet_recDelAll_mem h.nodupE hfp] at h1'
        exact absurd h1' (by simp)
      · rw [recGet_recDelAll_not_mem hfp] at h1' h2'
        exact h.agree fp me fe h1' h2'

theorem inv_cleanupIfNeeded {α : Type} (now : Nat) (s : CacheState α)
    (h : CacheInv s) : CacheInv (cleanupIfNeeded now s).2 := by
  simp only [cleanupIfNeeded]
  rcases hm : s.manifestFile with _ | m
  · exact h
  · dsimp only
    by_cases hc : 10 * m.totalSize < 9 * (maxSizeOrDefault m : Int)
    · rw [if_pos hc]
      exact h
    · rw [if_neg hc]
      exact inv_performCleanup now s h

theorem inv_set {α : Type} (cfg : CacheConfig) (sz : α → Nat) (key : String)
    (data : α) (options : SetOptions) (now : Nat) (s : CacheState α)
    (h : CacheInv s) :
    CacheInv (PluginCache.set cfg sz key data options now s) := by
  unfold PluginCache.set
  by_cases hd : cfg.disabled = true
  · simp only [hd, if_true]
    exact h
  · have hb : cfg.disabled = false := by
      cases hcd : cfg.disabled
      · rfl
      · exact absurd hcd hd
    simp only [hb, Bool.false_eq_true, if_false]
    by_cases hsz : cfg.maxEntrySize < sz data
    · rw [if_pos hsz]
      exact h
    · rw [if_neg hsz]
      exact inv_cleanupIfNeeded now _ (inv_setCore cfg sz key data options now s h)

/-! ## Claim C1: size accounting invariant -/

/-- C1: on every state reachable (single process, from the empty cache
directory) by any sequence of `set`, `invalidate`, `invalidatePattern`,
`clear`, threshold cleanup, and expiry-purge operations,
`manifest.totalSize` equals the sum of the `size` fields of the remaining
manifest entries. -/
theorem c1_size_accounting {α : Type} (sz : α → Nat) (s : CacheState α)
    (h : Reachable sz s) :
    (getManifest s).totalSize = msum (getManifest s).entries := by
  have hInv : CacheInv s := by
    induction h with
    | init => exact inv_empty
    | set cfg key data options now s _ ih =>
      exact inv_set cfg sz key data options now s ih
    | invalidate cfg key s _ ih => exact inv_invalidate cfg key s ih
    | invalidatePattern cfg test s _ ih =>
      exact inv_invalidatePattern cfg test s ih
    | clear cfg s _ ih => exact inv_clear cfg s ih
    | cleanup now s _ ih => exact inv_performCleanup now s ih
    | purge now swr s _ ih => exact inv_purgeExpired now swr s ih
  exact hInv.sizeEq

theorem c1_size_accounting_witness :
    (getManifest (PluginCache.set cfgT szT "k" (42 : Nat) {} 5
        ⟨[], none⟩)).totalSize =
      msum (getManifest (PluginCache.set cfgT szT "k" (42 : Nat) {} 5
        ⟨[], none⟩)).entries :=
  c1_size_accounting szT _ (Reachable.set cfgT "k" 42 {} 5 _ Reachable.init)

/-! ## Claim C2: threshold trigger and LRU eviction -/

/-- C2: after any `set` the manifest file exists, and `cleanupIfNeeded` runs
exactly when `totalSize ≥ 0.9 × maxSize` (modelled exactly as
`10 · totalSize ≥ 9 · maxSize`).  When it runs, it removes precisely the
shortest prefix of the entry list sorted by `lastAccessedAt` ascending —
across all namespaces — needed to bring the running size to the
`0.7 × maxSize` target (or removes everything when the target is
unreachable): every removal happens while the running size is still above
the target, the loop stops at the target or exhausts the list, the rows
removed from the manifest are exactly those whose entry lies in that prefix,
and (for distinct access times) every removed entry was last accessed
strictly before every kept entry. -/
theorem c2_threshold_cleanup {α : Type} (now : Nat) (s : CacheState α)
    (m : CacheManifest)
    (hm : s.manifestFile = some m)
    (hmax : m.maxSize ≠ 0)
    (hnd : keysNodup m.entries)
    (hkf : ∀ p ∈ m.entries, p.2.filePath = p.1)
    (hdist : (m.entries.map (fun p => p.2.lastAccessedAt)).Nodup) :
    ((cleanupIfNeeded now s).1 ≠ none ↔
      9 * (m.maxSize : Int) ≤ 10 * m.totalSize) ∧
    (∀ r, (cleanupIfNeeded now s).1 = some r →
      ∃ k, k ≤ (sortByLastAccessed (m.entries.map (·.2))).length ∧
        r.entriesRemoved = k ∧
        (cleanupIfNeeded now s).2.manifestFile = some
          { m with
            totalSize := m.totalSize -
              (((sortByLastAccessed (m.entries.map (·.2))).take k).map
                (fun e => (e.size : Int))).sum
            entries := recDelAll m.entries
              (((sortByLastAccessed (m.entries.map (·.2))).take k).map
                (·.filePath))
            lastCleanup := some now } ∧
        (∀ j, j < k → 7 * (m.maxSize : Int) <
          10 * (m.totalSize -
            (((sortByLastAccessed (m.entries.map (·.2))).take j).map
              (fun e => (e.size : Int))).sum)) ∧
        (k = (sortByLastAccessed (m.entries.map (·.2))).length ∨
          10 * (m.totalSize -
            (((sortByLastAccessed (m.entries.map (·.2))).take k).map
              (fun e => (e.size : Int))).sum) ≤ 7 * (m.maxSize : Int)) ∧
        (∀ p ∈ m.entries,
          (recGet (getManifest (cleanupIfNeeded now s).2).entries p.1 = none ↔
            p.2 ∈ (sortByLastAccessed (m.entries.map (·.2))).take k)) ∧
        (∀ e1 ∈ (sortByLastAccessed (m.entries.map (·.2))).take k,
          ∀ e2 ∈ (sortByLastAccessed (m.entries.map (·.2))).drop k,
            e1.lastAccessedAt < e2.lastAccessedAt)) := by
  have hms : maxSizeOrDefault m = m.maxSize := by
    unfold maxSizeOrDefault
    rw [if_neg hmax]
  by_cases hc : 10 * m.totalSize < 9 * (maxSizeOrDefault m : Int)
  · have hni : cleanupIfNeeded now s = (none, s) := by
      unfold cleanupIfNeeded
      rw [hm]
      dsimp only
      rw [if_pos hc]
    constructor
    · rw [hni]
      refine iff_of_false (by simp) ?_
      rw [hms] at hc
      exact not_le.mpr hc
    · intro r hr
      rw [hni] at hr
      exact absurd hr (by simp)
  · rcases cleanupLoop_spec (maxSizeOrDefault m)
      (sortByLastAccessed (m.entries.map (·.2))) s.files m.entries
      m.totalSize 0 0 with ⟨k, hkle, heq, hmin, hstop⟩
    have hpc : performCleanup now s =
        (⟨0 + k,
          0 + (((sortByLastAccessed (m.entries.map (·.2))).take k).map
            (·.size)).sum,
          m.totalSize - (((sortByLastAccessed (m.entries.map (·.2))).take
            k).map (fun e => (e.size : Int))).sum⟩,
         { files := recDelAll s.files
             (((sortByLastAccessed (m.entries.map (·.2))).take k).map
               (·.filePath))
           manifestFile := some
             { m with
               totalSize := m.totalSize -
                 (((sortByLastAccessed (m.entries.map (·.2))).take k).map
                   (fun e => (e.size : Int))).sum
               entries := recDelAll m.entries
                 (((sortByLastAccessed (m.entries.map (·.2))).take k).map
                   (·.filePath))
               lastCleanup := some now } }) := by
      unfold performCleanup
      rw [hm]
      dsimp only
      rw [heq]
    have hrun : cleanupIfNeeded now s =
        (some (performCleanup now s).1, (performCleanup now s).2) := by
      unfold cleanupIfNeeded
      rw [hm]
      dsimp only
      rw [if_neg hc]
    constructor
    · rw [hrun]
      refine iff_of_true (by simp) ?_
      rw [hms] at hc
      exact not_lt.mp hc
    · intro r hr
      rw [hrun] at hr
      have hr' : r = (performCleanup now s).1 := (Option.some.inj hr).symm
      subst hr'
      refine ⟨k, hkle, ?_, ?_, ?_, ?_, ?_, ?_⟩
      · rw [hpc]
        show 0 + k = k
        omega
      · rw [hrun, hpc]
      · intro j hj
        have hmj := hmin j hj
        rw [hms] at hmj
        exact not_le.mp hmj
      · rcases hstop with h' | h'
        · exact Or.inl h'
        · rw [hms] at h'
          exact Or.inr h'
      · intro p hp
        rw [hrun, hpc]
        show recGet (recDelAll m.entries
            (((sortByLastAccessed (m.entries.map (·.2))).take k).map
              (·.filePath))) p.1 = none ↔
          p.2 ∈ (sortByLastAccessed (m.entries.map (·.2))).take k
        constructor
        · intro hnone
          by_cases hmem : p.1 ∈ ((sortByLastAccessed
              (m.entries.map (·.2))).take k).map (·.filePath)
          · rcases List.mem_map.mp hmem with ⟨e, he, hfp⟩
            have hesort : e ∈ sortByLastAccessed (m.entries.map (·.2)) :=
              List.take_subset _ _ he
            have h1 : recGet m.entries e.filePath = some e :=
              recGet_of_mem_rows hnd hkf (mem_entries_of_mem_sorted hesort)
            have h2 : recGet m.entries p.1 = some p.2 :=
              recGet_eq_some_of_mem hnd hp
            rw [hfp] at h1
            have he2 : e = p.2 := Option.some.inj (h1.symm.trans h2)
            rw [← he2]
            exact he
          · rw [recGet_recDelAll_not_mem hmem,
              recGet_eq_some_of_mem hnd hp] at hnone
            exact absurd hnone (by simp)
        · intro htake
          apply recGet_recDelAll_mem hnd
          exact List.mem_map.mpr ⟨p.2, htake, hkf p hp⟩
      · have htrans : ∀ a b c : ManifestEntry,
            decide (a.lastAccessedAt ≤ b.lastAccessedAt) = true →
            decide (b.lastAccessedAt ≤ c.lastAccessedAt) = true →
            decide (a.lastAccessedAt ≤ c.lastAccessedAt) = true := by
          intro a b c h1 h2
          simp only [decide_eq_true_eq] at h1 h2 ⊢
          omega
        have htot : ∀ a b : ManifestEntry,
            (decide (a.lastAccessedAt ≤ b.lastAccessedAt) ||
              decide (b.lastAccessedAt ≤ a.lastAccessedAt)) = true := by
          intro a b
          simp [Nat.le_total]
        have hpw : List.Pairwise
            (fun a b : ManifestEntry => a.lastAccessedAt ≤ b.lastAccessedAt)
            (sortByLastAccessed (m.entries.map (·.2))) := by
          have hsm := List.sorted_mergeSort htrans htot (m.entries.map (·.2))
          exact hsm.imp (fun h => by simpa using h)
        have hnodL : ((sortByLastAccessed (m.entries.map (·.2))).map
            (·.lastAccessedAt)).Nodup := by
          have hperm := (List.mergeSort_perm (m.entries.map (·.2))
            (fun a b => a.lastAccessedAt ≤ b.lastAccessedAt)).map
            (·.lastAccessedAt)
          have hmm : ((m.entries.map (·.2)).map (·.lastAccessedAt)) =
              m.entries.map (fun p => p.2.lastAccessedAt) := by
            rw [List.map_map]
            rfl
          exact (List.Perm.nodup_iff hperm).mpr (hmm ▸ hdist)
        intro e1 h1 e2 h2
        have hpwApp : List.Pairwise
            (fun a b : ManifestEntry => a.lastAccessedAt ≤ b.lastAccessedAt)
            (((sortByLastAccessed (m.entries.map (·.2))).take k) ++
              ((sortByLastAccessed (m.entries.map (·.2))).drop k)) := by
          rw [List.take_append_drop]
          exact hpw
        have hsplit := List.pairwise_append.mp hpwApp
        have hle : e1.lastAccessedAt ≤ e2.lastAccessedAt :=
          hsplit.2.2 e1 h1 e2 h2
        have happ : (((sortByLastAccessed (m.entries.map (·.2))).take k).map
            (·.lastAccessedAt)) ++
            (((sortByLastAccessed (m.entries.map (·.2))).drop k).map
              (·.lastAccessedAt)) =
            (sortByLastAccessed (m.entries.map (·.2))).map
              (·.lastAccessedAt) := by
          rw [← List.map_append, List.take_append_drop]
        have hnodApp : ((((sortByLastAccessed (m.entries.map (·.2))).take
            k).map (·.lastAccessedAt)) ++
            (((sortByLastAccessed (m.entries.map (·.2))).drop k).map
              (·.lastAccessedAt))).Nodup := by
          rw [happ]
          exact hnodL
        have hsplit2 := List.pairwise_append.mp hnodApp
        have hne : e1.lastAccessedAt ≠ e2.lastAccessedAt :=
          hsplit2.2.2 e1.lastAccessedAt
            (List.mem_map.mpr ⟨e1, h1, rfl⟩)
            e2.lastAccessedAt (List.mem_map.mpr ⟨e2, h2, rfl⟩)
        exact lt_of_le_of_ne hle hne

/-- Manifest rows for the C2 witness: sizes 40/30/25, distinct access
times, total 95 of a 100-byte budget. -/
def rowX : ManifestEntry :=
  { filePath := "a/x.json", nspace := "a", key := "x", size := 40
    lastAccessedAt := 10, expiresAt := 999 }

/-- Second witness row (different namespace, oldest access time). -/
def rowY : ManifestEntry :=
  { filePath := "b/y.json", nspace := "b", key := "y", size := 30
    lastAccessedAt := 5, expiresAt := 999 }

/-- Third witness row (newest access time). -/
def rowZ : ManifestEntry :=
  { filePath := "a/z.json", nspace := "a", key := "z", size := 25
    lastAccessedAt := 20, expiresAt := 999 }

/-- A manifest at 95% of its 100-byte budget. -/
def mC2 : CacheManifest :=
  { version := 1, totalSize := 95, maxSize := 100
    entries := [("a/x.json", rowX), ("b/y.json", rowY), ("a/z.json", rowZ)] }

/-- The state holding `mC2` as its manifest file. -/
def sC2 : CacheState Nat := ⟨[], some mC2⟩

theorem c2_threshold_cleanup_witness :
    (cleanupIfNeeded 50 sC2).1 ≠ none ↔
      9 * ((mC2).maxSize : Int) ≤ 10 * mC2.totalSize :=
  (c2_threshold_cleanup 50 sC2 mC2 rfl (by decide) (by decide) (by decide)
    (by decide)).1
